import Mathlib

/-!
Verification of the ingestion-and-relevance pipeline of the articlesummaries
repository.  The Python source is shallowly embedded: datetimes are modelled
as integers, floats as rationals, and each remote service as an explicit
response-valued argument (the response the service would produce for the
n-th request issued during one call).  Definitions come first, theorems at
the end of the file.
-/

/-- Paper record (src/paper.py).  `published_date` (a `datetime` in the
source) is modelled as an integer timestamp; annotation fields added by the
filtering strategies are optional, as in the dataclass. -/
structure Paper where
  id : String
  title : String := ""
  authors : List String := []
  abstract : String := ""
  url : String := ""
  published_date : Option Int := none
  source : String := "unknown"
  categories : List String := []
  matched_keywords : Option (List String) := none
  similarity_score : Option ℚ := none
  matched_target : Option String := none
deriving DecidableEq, Repr

/-- Python `str.lower()` (as used on titles/abstracts/keywords). -/
def strLower (s : String) : String := String.mk (s.data.map Char.toLower)

namespace KeywordFilter

/-- The text searched by `KeywordFilter.filter` for one paper:
`str(paper.title).lower() + " " + str(paper.abstract).lower()`
(src/filtering/keyword_filter.py, lines 94-96).  An absent title/abstract is
the empty string, which lower-cases to itself. -/
def searchText (p : Paper) : List Char :=
  (strLower p.title).data ++ ' ' :: (strLower p.abstract).data

/-- The matching-keyword list of one paper:
`[kw for kw in self.keywords if kw in text_to_search]`
(src/filtering/keyword_filter.py, line 99). -/
def matchedOf (keywords : List String) (p : Paper) : List String :=
  keywords.filter (fun kw => kw.data <:+: searchText p)

/-- A paper as appended to `relevant_papers`: the input paper with the
matching keywords stored in `matched_keywords` (line 103 of the source). -/
def annotate (keywords : List String) (p : Paper) : Paper :=
  { p with matched_keywords := some (matchedOf keywords p) }

/-- The `for paper in papers` loop of `KeywordFilter.filter`
(src/filtering/keyword_filter.py, lines 91-104): a paper is appended iff
its matching-keyword list is non-empty. -/
def filterRun (keywords : List String) : List Paper → List Paper
  | [] => []
  | p :: ps =>
    if (matchedOf keywords p).isEmpty then filterRun keywords ps
    else annotate keywords p :: filterRun keywords ps

/-- `KeywordFilter.filter` (src/filtering/keyword_filter.py, lines 67-108).
`keywords` is the configured (already lower-cased) keyword list stored by
`configure`; an empty configuration passes the input list through
unchanged (lines 82-85). -/
def filter (keywords : List String) (papers : List Paper) : List Paper :=
  if keywords.isEmpty then papers else filterRun keywords papers

/-- The spec's wording of the keyword-inclusion criterion, for comparison
with the code: some configured keyword is a substring of
`(title+abstract).lower()` -- title and abstract concatenated directly,
with no separator. -/
def specIncluded (keywords : List String) (p : Paper) : Prop :=
  ∃ kw ∈ keywords, kw.data <:+: (strLower (p.title ++ p.abstract)).data

instance (keywords : List String) (p : Paper) :
    Decidable (specIncluded keywords p) := by
  unfold specIncluded; infer_instance

end KeywordFilter

/-- Maximum of a list of rationals, as computed by `torch.max` over the
similarity row of one paper (0 on the empty row, which the guarded code
never reaches). -/
def maxQ : List ℚ → ℚ
  | [] => 0
  | [x] => x
  | x :: y :: xs => max x (maxQ (y :: xs))

/-- Index of the first occurrence of the maximum, as returned by
`torch.argmax` (its documented tie-break: the first maximal value). -/
def argmaxIdx : List ℚ → ℕ
  | [] => 0
  | [_] => 0
  | x :: y :: xs => if x < maxQ (y :: xs) then argmaxIdx (y :: xs) + 1 else 0

/-- Python's `round(q, 3)`: round to 3 decimal places, ties to even
(banker's rounding on the exact rational value). -/
def pyRound3 (q : ℚ) : ℚ :=
  let s : ℚ := q * 1000
  let f : ℤ := ⌊s⌋
  if s - f < 1 / 2 then f / 1000
  else if 1 / 2 < s - f then (f + 1) / 1000
  else (if f % 2 = 0 then (f : ℚ) else (f + 1 : ℤ)) / 1000

namespace SentenceTransformerFilter

/-- Relevant state of `SentenceTransformerFilter`
(src/filtering/sentence_transformer_filter.py): `configured` is the flag
set at the end of `configure`; `modelLoaded`/`targetsLoaded` record whether
`self.model` / `self.target_embeddings` are non-`None` (both become `None`
when `_load_model_and_encode_targets` fails). -/
structure State where
  configured : Bool
  modelLoaded : Bool
  targetsLoaded : Bool
  similarity_threshold : ℚ
  target_texts : List String
deriving DecidableEq, Repr

/-- The cosine-similarity row of one abstract against the target texts
(`cos_sim(paper_embeddings, target_embeddings)[i]`); the numeric model
`cos` abstracts the composition of the encoder with cosine similarity. -/
def simRow (cos : String → String → ℚ) (targets : List String)
    (abstract : String) : List ℚ :=
  targets.map (fun t => cos abstract t)

/-- The annotation applied to a kept paper
(src/filtering/sentence_transformer_filter.py, lines 118-121): store the
row maximum rounded to 3 decimals (`round(max_similarity, 3)`) and the
target text at index `i` of `target_texts`. -/
def annotateAt (st : State) (m : ℚ) (i : ℕ) (p : Paper) : Paper :=
  { p with similarity_score := some (pyRound3 m),
           matched_target := some (st.target_texts.getD i "") }

/-- The `for i, paper in enumerate(papers_with_abstracts)` loop
(src/filtering/sentence_transformer_filter.py, lines 113-127): keep a paper
iff the row maximum reaches the threshold, annotating it at the
`torch.argmax` index of the row. -/
def filterLoop (st : State) (cos : String → String → ℚ) :
    List Paper → List Paper
  | [] => []
  | p :: ps =>
    let row := simRow cos st.target_texts p.abstract
    if st.similarity_threshold ≤ maxQ row then
      annotateAt st (maxQ row) (argmaxIdx row) p :: filterLoop st cos ps
    else filterLoop st cos ps

/-- `SentenceTransformerFilter.filter`
(src/filtering/sentence_transformer_filter.py, lines 81-135).  `encodeOk`
models whether encoding the batch of abstracts raises (the `except` at
line 129 turns any such failure into an empty result). -/
def filter (st : State) (cos : String → String → ℚ) (encodeOk : Bool)
    (papers : List Paper) : List Paper :=
  if !st.configured then []
  else if !st.modelLoaded || !st.targetsLoaded then []
  else if papers.isEmpty then []
  else
    let withAbstracts := papers.filter (fun p => p.abstract ≠ "")
    if withAbstracts.isEmpty then []
    else if !encodeOk then []
    else filterLoop st cos withAbstracts

end SentenceTransformerFilter

/-- JSON values, as produced by `json.loads` of the model's message
content.  Numbers are modelled as rationals (covering Python int and
float); `json.loads` never produces duplicate object keys. -/
inductive JVal where
  | jnull
  | jbool (b : Bool)
  | jnum (q : ℚ)
  | jstr (s : String)
  | jarr (elems : List JVal)
  | jobj (fields : List (String × JVal))

/-- Dictionary lookup on a JSON object's fields. -/
def jlookup (key : String) : List (String × JVal) → Option JVal
  | [] => none
  | (k, v) :: rest => if k = key then some v else jlookup key rest

/-- `LLMResponse` (src/src/llm/base_checker.py, lines 8-21), with the
dataclass defaults. -/
structure LLMResponse where
  is_relevant : Bool := false
  confidence : ℚ := 0
  explanation : String := "No explanation provided."
deriving DecidableEq, Repr

/-- Python `str(...)` as applied to the `explanation` value.  Only its
value on JSON strings matters to the checker; the remaining cases are
schematic renderings. -/
def pyStr : JVal → String
  | .jstr s => s
  | .jbool true => "True"
  | .jbool false => "False"
  | .jnull => "None"
  | .jnum q => toString q.num
  | .jarr _ => "[...]"
  | .jobj _ => "\x7b...\x7d"

namespace GroqChecker

/-- The provider-side outcome of one chunk request, one constructor per
exception case distinguished by the handlers of `_process_abstract_batch`
(src/src/llm/groq_checker.py, lines 206-237).  `success none` is message
content rejected by `json.loads`; `missingChoices` is a response without
choices or content (the `ValueError`s raised at lines 162-166, caught by
the handler at line 228).  `RateLimitError` is listed first in the source
and is therefore never handled by the `APIStatusError` clause. -/
inductive Outcome where
  | success (content : Option JVal)
  | missingChoices
  | rateLimitError
  | apiStatusError (status_code : ℕ)
  | apiConnectionError
  | groqError
  | otherError

/-- A Python exception escaping the embedded code (an uncaught `raise`). -/
inductive PyExc where
  | apiStatusError (status_code : ℕ)
deriving DecidableEq

/-- An `LLMResponse` carrying only an error explanation (the dataclass
defaults for the other two fields). -/
def errorResponse (explanation : String) : LLMResponse :=
  { explanation := explanation }

/-- `GroqChecker._parse_individual_result` (src/src/llm/groq_checker.py,
lines 239-261): non-dict items and items with missing keys or wrongly
typed values become isolated error verdicts.  `isinstance(x, (float, int))`
accepts Python booleans (a subclass of int), hence the `jbool` confidence
case with `float(True) = 1.0`. -/
def _parse_individual_result (v : JVal) : LLMResponse :=
  match v with
  | .jobj fields =>
    match jlookup "is_relevant" fields, jlookup "confidence" fields,
        jlookup "explanation" fields with
    | some rel, some conf, some expl =>
      match rel, conf with
      | .jbool b, .jnum q =>
        { is_relevant := b, confidence := q, explanation := pyStr expl }
      | .jbool b, .jbool cb =>
        { is_relevant := b, confidence := if cb then 1 else 0, explanation := pyStr expl }
      | _, _ =>
        errorResponse "Invalid item structure in LLM response array (ValueError)."
    | _, _, _ =>
      errorResponse "Invalid item structure in LLM response array (ValueError)."
  | _ => errorResponse "Invalid item type in LLM response array."

/-- `GroqChecker._process_abstract_batch` (src/src/llm/groq_checker.py,
lines 124-237).  All handlers return one error verdict per abstract of the
chunk -- except the `APIStatusError` handler (lines 213-224), whose
`raise e` for a status other than 413 escapes the whole `try` statement:
in Python an exception raised inside a handler is not passed to the
remaining handlers of the same `try`, so neither the
`(APIConnectionError, GroqError)` clause nor the final `except Exception`
sees it. -/
def _process_abstract_batch (abstract_batch : List String) (outcome : Outcome) :
    Except PyExc (List LLMResponse) :=
  let n := abstract_batch.length
  if n = 0 then .ok []
  else
    match outcome with
    | .success none =>
      .ok (List.replicate n
        (errorResponse "Error: Failed to parse/validate batch response (JSONDecodeError)."))
    | .missingChoices =>
      .ok (List.replicate n
        (errorResponse "Error: Failed to parse/validate batch response (ValueError)."))
    | .success (some raw) =>
      let results : Option (List JVal) :=
        match raw with
        | .jobj fields =>
          match jlookup "abstracts" fields with
          | some (.jarr l) => some l
          | some _ => none
          | none => none
        | .jarr l => some l
        | _ => none
      match results with
      | none =>
        .ok (List.replicate n
          (errorResponse "Error: Failed to parse/validate batch response (ValueError)."))
      | some results_list =>
        if results_list.length ≠ n then
          .ok ((results_list.map _parse_individual_result ++
            List.replicate (n - results_list.length)
              (errorResponse "LLM response size mismatch.")).take n)
        else .ok (results_list.map _parse_individual_result)
    | .rateLimitError =>
      .ok (List.replicate n
        (errorResponse "Error: Groq API rate limit hit (RateLimitError)."))
    | .apiStatusError code =>
      if code = 413 then
        .ok (List.replicate n
          (errorResponse "Error: Request too large for model. Reduce batch_size."))
      else .error (.apiStatusError code)
    | .apiConnectionError =>
      .ok (List.replicate n (errorResponse "Error: Groq API error (APIConnectionError)."))
    | .groqError =>
      .ok (List.replicate n (errorResponse "Error: Groq API error (GroqError)."))
    | .otherError =>
      .ok (List.replicate n (errorResponse "Error: Unexpected batch error (Exception)."))

/-- The chunking performed by `range(0, total_abstracts, batch_size)` with
slices of length `batch_size` (src/src/llm/groq_checker.py, lines
288-291).  The constructor guarantees `batch_size ≥ 1`, for which this
recursion agrees with repeated take/drop by `batch_size`. -/
def chunkListGo (batch_size : ℕ) : ℕ → List α → List (List α)
  | _, [] => []
  | 0, _ :: _ => []
  | fuel + 1, x :: xs =>
    (x :: xs).take batch_size :: chunkListGo batch_size fuel (xs.drop (batch_size - 1))

/-- Entry point of the chunking: every iteration consumes at least one
element when `batch_size ≥ 1`, so `l.length` bounds the iteration count. -/
def chunkList (batch_size : ℕ) (l : List α) : List (List α) :=
  chunkListGo batch_size l.length l

/-- The `for i in range(...)` loop of `check_relevance_batch`: process the
chunks in order, extending `all_responses`; an exception escaping a chunk
propagates (the loop has no handler of its own). -/
def runChunks (remote : ℕ → Outcome) : ℕ → List (List String) → Except PyExc (List LLMResponse)
  | _, [] => .ok []
  | i, c :: cs =>
    match _process_abstract_batch c (remote i) with
    | .error e => .error e
    | .ok rs =>
      match runChunks remote (i + 1) cs with
      | .error e => .error e
      | .ok rest => .ok (rs ++ rest)

/-- `GroqChecker.check_relevance_batch` (src/src/llm/groq_checker.py,
lines 263-321): partition the abstracts into consecutive chunks of
`batch_size` and concatenate the per-chunk verdict lists.  `remote` gives
the provider outcome of the i-th chunk request; the inter-chunk sleeps do
not affect the returned value. -/
def check_relevance_batch (batch_size : ℕ) (remote : ℕ → Outcome)
    (abstracts : List String) : Except PyExc (List LLMResponse) :=
  if abstracts.isEmpty then .ok []
  else runChunks remote 0 (chunkList batch_size abstracts)

end GroqChecker

/-- One `arxiv.Result` as yielded by the arxiv library's search generator
(src/src/paper_sources/arxiv_source.py); `updated` is the record's
last-updated instant, modelled as an integer timestamp. -/
structure ArxivResult where
  short_id : String
  title : String := ""
  authors : List String := []
  summary : String := ""
  entry_id : String := ""
  updated : Int := 0
  categories : List String := []
deriving DecidableEq, Repr

namespace ArxivSource

/-- Conversion of one `arxiv.Result` to the internal `Paper`
(src/src/paper_sources/arxiv_source.py, lines 197-209). -/
def toPaper (r : ArxivResult) : Paper :=
  { id := r.short_id, title := r.title, authors := r.authors,
    abstract := r.summary, url := r.entry_id,
    published_date := some r.updated, source := "arxiv",
    categories := r.categories }

/-- The dedup loop (src/src/paper_sources/arxiv_source.py, lines 181-189):
keep the first occurrence of each `get_short_id()`. -/
def dedup (seen : List String) : List ArxivResult → List ArxivResult
  | [] => []
  | r :: rs =>
    if r.short_id ∈ seen then dedup seen rs
    else r :: dedup (r.short_id :: seen) rs

/-- `ArxivSource.fetch_papers` (src/src/paper_sources/arxiv_source.py,
lines 83-211).  The time window shapes only the `lastUpdatedDate` query
string sent to the remote; `fetched_results` is the list the arxiv
library's generator yields for that query (the empty list when the search
raises, lines 151-158).  With no categories configured the function
returns before constructing any query (lines 98-101). -/
def fetch_papers (categories : List String) (start_time_utc end_time_utc : Int)
    (fetched_results : List ArxivResult) : List Paper :=
  if categories.isEmpty then []
  else (dedup [] fetched_results).map toPaper

end ArxivSource

/-- One record of a bioRxiv/medRxiv `collection`
(src/src/paper_sources/biorxiv_source.py, lines 227-258).  `doi` is `none`
when the key is missing; the empty string models a present-but-falsy doi.
`date` is the outcome of parsing the record's date string: `none` when the
string is missing, empty or unparsable, otherwise the day as an integer.
`authors` is the semicolon-separated author string modelled post-split
(`item.get("authors", "N/A").split("; ")`); no verified property depends
on the splitting itself. -/
structure BxItem where
  doi : Option String := none
  date : Option Int := none
  title : String := "N/A"
  authors : List String := ["N/A"]
  abstract : String := "N/A"
  category : String := "N/A"
deriving DecidableEq, Repr

/-- The first `messages` block of a response
(src/src/paper_sources/biorxiv_source.py, lines 200-214 and 278-287).
Each field holds `some v` when `int(messages.get(key, 0))` evaluates to
`v` (a missing key gives 0), and `none` when the conversion raises. -/
structure BxMessages where
  total : Option Int := some 0
  cursor : Option Int := some 0
  count : Option Int := some 0
deriving DecidableEq, Repr

/-- One remote response (src/src/paper_sources/biorxiv_source.py, lines
184-201).  `err` is a transport or JSON-decode failure (the handlers at
lines 189-198 return `[]` for the whole call); `crashMessages` is a
decoded body whose "messages" key holds an empty list, which makes
`data.get("messages", [{}])[0]` raise an uncaught IndexError. -/
inductive BxResponse where
  | err
  | crashMessages
  | page (msgs : BxMessages) (collection : List BxItem)

/-- Result of one `fetch_papers` call: `raised` when an exception escapes,
`fuelOut` when the model's page budget is exhausted with the loop still
running (the Python loop has no built-in iteration bound), otherwise the
returned paper list together with the number of page requests issued. -/
inductive BxRun where
  | raised
  | fuelOut
  | ok (papers : List Paper) (requests : ℕ)
deriving DecidableEq, Repr

namespace BiorxivSource

/-- `MAX_RESULTS_PER_PAGE` (src/src/paper_sources/biorxiv_source.py,
line 29). -/
def MAX_RESULTS_PER_PAGE : ℕ := 100

/-- Paper built from an accepted record
(src/src/paper_sources/biorxiv_source.py, lines 248-259). -/
def itemToPaper (server : String) (d : String) (it : BxItem) : Paper :=
  { id := d, title := it.title, authors := it.authors,
    abstract := it.abstract,
    url := "https://www." ++ server ++ ".org/content/" ++ d,
    published_date := it.date, source := server,
    categories := [it.category] }

/-- Does `papers_collected_count >= self.max_total_results` hold?
(`none` models `max_total_results is None`.) -/
def capReached (cap : Option ℕ) (n : ℕ) : Bool :=
  match cap with
  | none => false
  | some c => c ≤ n

/-- The `for item in collection` loop
(src/src/paper_sources/biorxiv_source.py, lines 226-271): skip items with
a missing/falsy or already-seen doi, convert the rest, and break out with
`limit_reached` as soon as the collected count reaches the cap.  Returns
the updated seen-doi set and paper list, the page's `count_in_page`, and
the `limit_reached` flag. -/
def processItems (server : String) (cap : Option ℕ) :
    List BxItem → List String → List Paper → ℕ → List String × List Paper × ℕ × Bool
  | [], seen, acc, count_in_page => (seen, acc, count_in_page, false)
  | it :: rest, seen, acc, count_in_page =>
    match it.doi with
    | none => processItems server cap rest seen acc count_in_page
    | some d =>
      if d = "" ∨ d ∈ seen then processItems server cap rest seen acc count_in_page
      else
        let acc' := acc ++ [itemToPaper server d it]
        if capReached cap acc'.length then (d :: seen, acc', count_in_page + 1, true)
        else processItems server cap rest (d :: seen) acc' (count_in_page + 1)

/-- The `papers[:max_total_results]` truncation
(src/src/paper_sources/biorxiv_source.py, lines 313-316). -/
def truncateCap (cap : Option ℕ) (papers : List Paper) : List Paper :=
  match cap with
  | some c => if c < papers.length then papers.take c else papers
  | none => papers

/-- One iteration of the `while True` loop
(src/src/paper_sources/biorxiv_source.py, lines 166-304): either the call
finishes with a `BxRun` or continues to the next page with updated state.
State: `req` pages requested so far, `cursor`, `total_results` (-1 while
unknown, as initialised at line 158), the seen dois and the collected
papers. -/
inductive Step where
  | halt (r : BxRun)
  | next (req : ℕ) (cursor : Int) (total_results : Int)
      (seen : List String) (acc : List Paper)

/-- The body of one `while True` iteration.  In order: the top-of-loop cap
check (line 168), the request with its two failure handlers (lines
184-198), the IndexError hazard at line 200, the one-time total parse
(lines 204-214), the empty-collection break (line 222), the item loop, the
`limit_reached` break (line 274), the cursor/count conversion with its
break-on-failure (lines 279-287), and the three-way stop test (lines
293-301). -/
def step (remote : ℕ → BxResponse) (cap : Option ℕ) (server : String)
    (req : ℕ) (cursor : Int) (total_results : Int)
    (seen : List String) (acc : List Paper) : Step :=
  if capReached cap acc.length then .halt (.ok (truncateCap cap acc) req)
  else
    match remote req with
    | .err => .halt (.ok [] (req + 1))
    | .crashMessages => .halt .raised
    | .page msgs coll =>
      let total' := if total_results = -1 then msgs.total.getD 0 else total_results
      if coll.isEmpty then .halt (.ok (truncateCap cap acc) (req + 1))
      else
        let pr := processItems server cap coll seen acc 0
        if pr.2.2.2 then .halt (.ok (truncateCap cap pr.2.1) (req + 1))
        else
          match msgs.cursor, msgs.count with
          | some cv, some cnt =>
            if pr.2.2.1 < MAX_RESULTS_PER_PAGE ∨ cv + cnt ≤ cursor ∨
                (total' ≠ -1 ∧ (total' : Int) ≤ (pr.1.length : Int)) then
              .halt (.ok (truncateCap cap pr.2.1) (req + 1))
            else .next (req + 1) (cv + cnt) total' pr.1 pr.2.1
          | _, _ => .halt (.ok (truncateCap cap pr.2.1) (req + 1))

/-- The `while True` loop, iterated up to `fuel` times. -/
def go (remote : ℕ → BxResponse) (cap : Option ℕ) (server : String) :
    ℕ → ℕ → Int → Int → List String → List Paper → BxRun
  | 0, _, _, _, _, _ => .fuelOut
  | fuel + 1, req, cursor, total_results, seen, acc =>
    match step remote cap server req cursor total_results seen acc with
    | .halt r => r
    | .next req' cursor' total' seen' acc' =>
      go remote cap server fuel req' cursor' total' seen' acc'

/-- `BiorxivSource.fetch_papers` (src/src/paper_sources/biorxiv_source.py,
lines 136-321).  `categories` and the time window shape only the request
URL and parameters, which the abstract `remote` already accounts for; in
particular no code path inspects `categories` before issuing the first
request.  `fuel` bounds the number of loop iterations in the model. -/
def fetch_papers (server : String) (categories : List String)
    (start_time_utc end_time_utc : Int) (cap : Option ℕ)
    (remote : ℕ → BxResponse) (fuel : ℕ) : BxRun :=
  go remote cap server fuel 0 0 (-1) [] []

/-- The collection carried by one response (empty for the non-page
responses, whose items are never examined). -/
def pageItems : BxResponse → List BxItem
  | .page _ coll => coll
  | _ => []

/-- All records contained in the first `r` responses, in arrival order. -/
def consumedItems (remote : ℕ → BxResponse) (r : ℕ) : List BxItem :=
  (List.range r).flatMap (fun i => pageItems (remote i))

/-- The cap-free accumulation of a list of pages: what the item loop
accepts when no result cap is configured and no stop condition cuts the
pages short.  Used to state that a capped run retains exactly the
earliest-arriving accepted items. -/
def acceptPages (server : String) :
    List (List BxItem) → List String → List Paper → List String × List Paper
  | [], seen, acc => (seen, acc)
  | pg :: rest, seen, acc =>
    let pr := processItems server none pg seen acc 0
    acceptPages server rest pr.1 pr.2.1

/-- The papers the cap-free item loop accepts from the given pages. -/
def acceptedNoCap (server : String) (pages : List (List BxItem)) : List Paper :=
  (acceptPages server pages [] []).2

end BiorxivSource
/-- Helper: membership characterisation of `KeywordFilter.filterRun`. -/
theorem KeywordFilter.mem_filterRun (keywords : List String)
    (papers : List Paper) (q : Paper) :
    q ∈ KeywordFilter.filterRun keywords papers ↔
      ∃ p ∈ papers,
        (∃ kw ∈ keywords, kw.data <:+: KeywordFilter.searchText p) ∧
        q = KeywordFilter.annotate keywords p := by
  induction papers with
  | nil => simp [KeywordFilter.filterRun]
  | cons p ps ih =>
    rw [KeywordFilter.filterRun]
    by_cases h : (KeywordFilter.matchedOf keywords p).isEmpty
    · rw [if_pos h, ih]
      constructor
      · rintro ⟨r, hr, hkw, hq⟩
        exact ⟨r, List.mem_cons_of_mem _ hr, hkw, hq⟩
      · rintro ⟨r, hr, hkw, hq⟩
        rcases List.mem_cons.mp hr with rfl | hr'
        · exfalso
          rcases hkw with ⟨kw, hkwm, hinf⟩
          have hmem : kw ∈ KeywordFilter.matchedOf keywords r :=
            List.mem_filter.mpr ⟨hkwm, by simpa using hinf⟩
          rw [List.isEmpty_iff] at h
          rw [h] at hmem
          exact absurd hmem (List.not_mem_nil kw)
        · exact ⟨r, hr', hkw, hq⟩
    · rw [if_neg h, List.mem_cons, ih]
      constructor
      · rintro (rfl | ⟨r, hr, hkw, hq⟩)
        · refine ⟨p, List.mem_cons_self _ _, ?_, rfl⟩
          rw [List.isEmpty_iff] at h
          rcases List.exists_mem_of_ne_nil _ h with ⟨kw, hkw⟩
          exact ⟨kw, (List.mem_filter.mp hkw).1,
            by simpa using (List.mem_filter.mp hkw).2⟩
        · exact ⟨r, List.mem_cons_of_mem _ hr, hkw, hq⟩
      · rintro ⟨r, hr, hkw, hq⟩
        rcases List.mem_cons.mp hr with rfl | hr'
        · exact Or.inl hq
        · exact Or.inr ⟨r, hr', hkw, hq⟩

/-- C2 counterexample.  The claim includes a paper whenever a keyword is a
substring of the direct concatenation `(title+abstract).lower()`; the code
joins title and abstract with a single space, so a keyword spanning the
title/abstract boundary matches under the claim but is rejected by the
code.  Here the keyword is "xy", the title "x" and the abstract "y". -/
theorem keyword_filter_concat_counterexample :
    KeywordFilter.specIncluded ["xy"] { id := "p1", title := "x", abstract := "y" } ∧
    KeywordFilter.filter ["xy"] [{ id := "p1", title := "x", abstract := "y" }] = [] := by
  constructor
  · decide
  · decide

/-- C2 (amended): with a non-empty configured keyword list, a paper is
included iff at least one configured keyword is a substring of the
lower-cased title and abstract joined by a single space, and each included
paper carries exactly the sublist of configured keywords occurring in that
text as `matched_keywords` (all other fields unchanged). -/
theorem keyword_filter_correct (keywords : List String)
    (papers : List Paper) (hk : keywords ≠ []) (q : Paper) :
    q ∈ KeywordFilter.filter keywords papers ↔
      ∃ p ∈ papers,
        (∃ kw ∈ keywords, kw.data <:+: KeywordFilter.searchText p) ∧
        q = KeywordFilter.annotate keywords p := by
  rw [KeywordFilter.filter, if_neg (by simpa [List.isEmpty_iff] using hk)]
  exact KeywordFilter.mem_filterRun keywords papers q

/-- Witness for `keyword_filter_correct` at a concrete input (spec
Scenario C): keyword "diffusion", a matching and a non-matching paper. -/
theorem keyword_filter_correct_witness :
    { id := "a", title := "diffusion models explained",
      matched_keywords := some ["diffusion"] : Paper } ∈
      KeywordFilter.filter ["diffusion"]
        [{ id := "a", title := "diffusion models explained" },
         { id := "b", title := "reinforcement learning" }] := by
  apply (keyword_filter_correct ["diffusion"]
    [{ id := "a", title := "diffusion models explained" },
     { id := "b", title := "reinforcement learning" }]
    (by decide) _).mpr
  refine ⟨{ id := "a", title := "diffusion models explained" }, by decide, by decide, by decide⟩

/-- C9: with an empty configured keyword list, `KeywordFilter.filter`
returns exactly its input list, unmodified and in order. -/
theorem keyword_filter_empty_passthrough (papers : List Paper) :
    KeywordFilter.filter [] papers = papers := by
  simp [KeywordFilter.filter]

/-- Helper: the row maximum is attained at `argmaxIdx` and at no earlier
index (torch.argmax returns the first maximal index). -/
theorem argmaxIdx_spec (row : List ℚ) (hrow : row ≠ []) :
    argmaxIdx row < row.length ∧
    row.getD (argmaxIdx row) 0 = maxQ row ∧
    ∀ j < argmaxIdx row, row.getD j 0 ≠ maxQ row := by
  induction row with
  | nil => exact absurd rfl hrow
  | cons x xs ih =>
    cases xs with
    | nil =>
      refine ⟨by simp [argmaxIdx], by simp [argmaxIdx, maxQ], ?_⟩
      intro j hj
      simp [argmaxIdx] at hj
    | cons y ys =>
      rcases ih (by simp) with ⟨ih1, ih2, ih3⟩
      by_cases h : x < maxQ (y :: ys)
      · have hmax : maxQ (x :: y :: ys) = maxQ (y :: ys) := by
          rw [maxQ]; exact max_eq_right h.le
        refine ⟨?_, ?_, ?_⟩
        · simp only [argmaxIdx, if_pos h, List.length_cons]
          simp only [List.length_cons] at ih1
          omega
        · simp only [argmaxIdx, if_pos h, hmax, List.getD_cons_succ]
          exact ih2
        · intro j hj
          simp only [argmaxIdx, if_pos h] at hj
          cases j with
          | zero =>
            simp only [List.getD_cons_zero, hmax]
            exact ne_of_lt h
          | succ k =>
            simp only [List.getD_cons_succ, hmax]
            exact ih3 k (by omega)
      · have hmax : maxQ (x :: y :: ys) = x := by
          rw [maxQ]; exact max_eq_left (not_lt.mp h)
        refine ⟨?_, ?_, ?_⟩
        · simp [argmaxIdx, if_neg h]
        · simp [argmaxIdx, if_neg h, hmax]
        · intro j hj
          simp [argmaxIdx, if_neg h] at hj

/-- Helper: the first-maximal index of a row is unique. -/
theorem argmaxIdx_eq_of (row : List ℚ) (i : ℕ) (h1 : i < row.length)
    (h2 : row.getD i 0 = maxQ row) (h3 : ∀ j < i, row.getD j 0 ≠ maxQ row) :
    i = argmaxIdx row := by
  have hne : row ≠ [] := by
    intro h
    rw [h] at h1
    exact absurd h1 (by simp)
  rcases argmaxIdx_spec row hne with ⟨a1, a2, a3⟩
  rcases lt_trichotomy i (argmaxIdx row) with h | h | h
  · exact absurd h2 (a3 i h)
  · exact h
  · exact absurd a2 (h3 _ h)

/-- Helper: membership characterisation of the sentence-transformer loop. -/
theorem SentenceTransformerFilter.mem_filterLoop
    (st : SentenceTransformerFilter.State) (cos : String → String → ℚ)
    (papers : List Paper) (q : Paper) :
    q ∈ SentenceTransformerFilter.filterLoop st cos papers ↔
      ∃ p ∈ papers,
        st.similarity_threshold ≤
          maxQ (SentenceTransformerFilter.simRow cos st.target_texts p.abstract) ∧
        q = SentenceTransformerFilter.annotateAt st
          (maxQ (SentenceTransformerFilter.simRow cos st.target_texts p.abstract))
          (argmaxIdx (SentenceTransformerFilter.simRow cos st.target_texts p.abstract))
          p := by
  induction papers with
  | nil => simp [SentenceTransformerFilter.filterLoop]
  | cons p ps ih =>
    rw [SentenceTransformerFilter.filterLoop]
    by_cases h : st.similarity_threshold ≤
        maxQ (SentenceTransformerFilter.simRow cos st.target_texts p.abstract)
    · rw [if_pos h, List.mem_cons, ih]
      constructor
      · rintro (rfl | ⟨r, hr, hth, hq⟩)
        · exact ⟨p, List.mem_cons_self _ _, h, rfl⟩
        · exact ⟨r, List.mem_cons_of_mem _ hr, hth, hq⟩
      · rintro ⟨r, hr, hth, hq⟩
        rcases List.mem_cons.mp hr with rfl | hr'
        · exact Or.inl hq
        · exact Or.inr ⟨r, hr', hth, hq⟩
    · rw [if_neg h, ih]
      constructor
      · rintro ⟨r, hr, hth, hq⟩
        exact ⟨r, List.mem_cons_of_mem _ hr, hth, hq⟩
      · rintro ⟨r, hr, hth, hq⟩
        rcases List.mem_cons.mp hr with rfl | hr'
        · exact absurd hth h
        · exact ⟨r, hr', hth, hq⟩

/-- C5 counterexample.  The claim says the stored `similarity_score` equals
the maximum cosine similarity; the code stores `round(max_similarity, 3)`
(line 118), so a maximum of 1/3 is stored as 0.333 ≠ 1/3. -/
theorem st_filter_score_counterexample :
    SentenceTransformerFilter.filter
      { configured := true, modelLoaded := true, targetsLoaded := true,
        similarity_threshold := 0, target_texts := ["t"] }
      (fun _ _ => 1 / 3) true [{ id := "p1", abstract := "a" }] =
      [{ id := "p1", abstract := "a", similarity_score := some (333 / 1000),
         matched_target := some "t" }] ∧
    (333 / 1000 : ℚ) ≠ 1 / 3 := by
  constructor
  · rw [SentenceTransformerFilter.filter]
    norm_num [SentenceTransformerFilter.filterLoop, SentenceTransformerFilter.simRow,
      SentenceTransformerFilter.annotateAt, maxQ, argmaxIdx, pyRound3]
    decide
  · norm_num

/-- C5 (amended): in the configured-and-loaded, encoding-success state with
a non-empty target list, a paper with non-empty abstract is included iff
the maximum cosine similarity of its abstract over all targets reaches the
threshold; the included paper stores that maximum rounded to 3 decimal
places as `similarity_score` and, as `matched_target`, the target at the
first index attaining the maximum (torch.argmax tie-break). -/
theorem st_filter_correct (st : SentenceTransformerFilter.State)
    (cos : String → String → ℚ) (papers : List Paper) (q : Paper)
    (hc : st.configured = true) (hm : st.modelLoaded = true)
    (ht : st.targetsLoaded = true) (htt : st.target_texts ≠ []) :
    q ∈ SentenceTransformerFilter.filter st cos true papers ↔
      ∃ p ∈ papers, p.abstract ≠ "" ∧
        st.similarity_threshold ≤
          maxQ (SentenceTransformerFilter.simRow cos st.target_texts p.abstract) ∧
        ∃ i < st.target_texts.length,
          (SentenceTransformerFilter.simRow cos st.target_texts p.abstract).getD i 0 =
            maxQ (SentenceTransformerFilter.simRow cos st.target_texts p.abstract) ∧
          (∀ j < i,
            (SentenceTransformerFilter.simRow cos st.target_texts p.abstract).getD j 0 ≠
              maxQ (SentenceTransformerFilter.simRow cos st.target_texts p.abstract)) ∧
          q = SentenceTransformerFilter.annotateAt st
            (maxQ (SentenceTransformerFilter.simRow cos st.target_texts p.abstract)) i p := by
  rw [SentenceTransformerFilter.filter]
  rw [hc, hm, ht]
  rw [if_neg (by simp), if_neg (by simp)]
  by_cases hp : papers.isEmpty
  · rw [if_pos hp]
    rw [List.isEmpty_iff] at hp
    subst hp
    simp
  · rw [if_neg hp]
    by_cases hwa : (papers.filter (fun p => p.abstract ≠ "")).isEmpty
    · rw [if_pos hwa]
      rw [List.isEmpty_iff] at hwa
      constructor
      · intro hq
        exact absurd hq (List.not_mem_nil q)
      · rintro ⟨p, hp', habs, -⟩
        have hpf : p ∈ papers.filter (fun p => p.abstract ≠ "") :=
          List.mem_filter.mpr ⟨hp', by simpa using habs⟩
        rw [hwa] at hpf
        exact absurd hpf (List.not_mem_nil p)
    · rw [if_neg hwa]
      rw [if_neg (by simp)]
      rw [SentenceTransformerFilter.mem_filterLoop]
      constructor
      · rintro ⟨p, hp', hth, hq⟩
        rcases List.mem_filter.mp hp' with ⟨hpm, habs⟩
        have hrowne : SentenceTransformerFilter.simRow cos st.target_texts p.abstract ≠ [] := by
          simp [SentenceTransformerFilter.simRow]
          intro h
          exact htt h
        rcases argmaxIdx_spec _ hrowne with ⟨a1, a2, a3⟩
        refine ⟨p, hpm, by simpa using habs, hth, argmaxIdx _, ?_, a2, a3, hq⟩
        simpa [SentenceTransformerFilter.simRow] using a1
      · rintro ⟨p, hpm, habs, hth, i, hi, h2, h3, hq⟩
        have hieq : i = argmaxIdx
            (SentenceTransformerFilter.simRow cos st.target_texts p.abstract) := by
          apply argmaxIdx_eq_of _ _ _ h2 h3
          simpa [SentenceTransformerFilter.simRow] using hi
        refine ⟨p, List.mem_filter.mpr ⟨hpm, by simpa using habs⟩, hth, ?_⟩
        rw [hq, hieq]

/-- Witness for `st_filter_correct` at a concrete input (spec Scenario E):
threshold 0.3, two targets, similarities 0.1 and 0.75; the paper is kept
with `matched_target` the second target and score 0.75. -/
theorem st_filter_correct_witness :
    { id := "p1", abstract := "a", similarity_score := some (3 / 4),
      matched_target := some "t2" : Paper } ∈
      SentenceTransformerFilter.filter
        { configured := true, modelLoaded := true, targetsLoaded := true,
          similarity_threshold := 3 / 10, target_texts := ["t1", "t2"] }
        (fun _ t => if t = "t2" then 3 / 4 else 1 / 10) true
        [{ id := "p1", abstract := "a" }] := by
  apply (st_filter_correct _ _ _ _ rfl rfl rfl (by decide)).mpr
  have hne : ¬ (("t1" : String) = "t2") := by decide
  have hmax : ((1 : ℚ) / 10) ⊔ (3 / 4) = 3 / 4 := max_eq_right (by norm_num)
  have h34 : pyRound3 (3 / 4) = 3 / 4 := by
    unfold pyRound3
    norm_num
  refine ⟨{ id := "p1", abstract := "a" }, by decide, by decide, ?_, 1, ?_, ?_, ?_, ?_⟩
  · simp [SentenceTransformerFilter.simRow, maxQ, hne, hmax]
    norm_num
  · decide
  · simp [SentenceTransformerFilter.simRow, maxQ, hne, hmax]
    norm_num
  · intro j hj
    interval_cases j
    simp [SentenceTransformerFilter.simRow, maxQ, hne, hmax]
    norm_num
  · simp [SentenceTransformerFilter.simRow, SentenceTransformerFilter.annotateAt,
      maxQ, hne, hmax]
    rw [max_eq_right (by norm_num : (10 : ℚ)⁻¹ ≤ 3 / 4), h34]

/-- C10: when the filter is not configured, or the model or the target
embeddings failed to load, `filter` returns the empty list for every input
(the guards at lines 83-88 of the source). -/
theorem st_filter_unready_empty (st : SentenceTransformerFilter.State)
    (cos : String → String → ℚ) (encodeOk : Bool) (papers : List Paper)
    (h : st.configured = false ∨ st.modelLoaded = false ∨ st.targetsLoaded = false) :
    SentenceTransformerFilter.filter st cos encodeOk papers = [] := by
  rcases h with h | h | h
  · simp [SentenceTransformerFilter.filter, h]
  · cases hc : st.configured <;> simp [SentenceTransformerFilter.filter, h, hc]
  · cases hc : st.configured <;> simp [SentenceTransformerFilter.filter, h, hc]

/-- Witness for `st_filter_unready_empty`: the freshly-constructed
(unconfigured) filter returns the empty list on a non-empty input. -/
theorem st_filter_unready_empty_witness :
    SentenceTransformerFilter.filter
      { configured := false, modelLoaded := false, targetsLoaded := false,
        similarity_threshold := 0, target_texts := [] }
      (fun _ _ => 0) true [{ id := "p1" }] = [] :=
  st_filter_unready_empty _ _ _ _ (Or.inl rfl)

/-- C1: the claim fails on the code.  A provider error with an HTTP status
other than 413 (here 500) is re-raised by the `except APIStatusError`
handler, and a `raise` inside a handler escapes the whole `try` statement,
so `check_relevance_batch` propagates the exception and yields no verdicts
at all -- against the claim (and the code's own comment, which expects the
`GroqError` handler to catch the re-raise).  By contrast the second
conjunct shows a malformed (empty-array) response for a chunk of two
abstracts still yields exactly two verdicts. -/
theorem groq_status_error_escapes :
    GroqChecker.check_relevance_batch 10 (fun _ => .apiStatusError 500) ["a"] =
      .error (.apiStatusError 500) ∧
    (GroqChecker.check_relevance_batch 10
      (fun _ => .success (some (.jarr []))) ["a", "b"]).map List.length = .ok 2 := by
  constructor
  · rfl
  · rfl

/-- C6 counterexample.  With no category tags configured, the
cursor-pagination source still issues requests and returns whatever the
remote sends (`configure` merely logs "fetch from all categories"); here a
fetch with empty `categories` returns one paper after one request, not the
empty list the claim requires of every source strategy. -/
theorem biorxiv_empty_categories_counterexample :
    BiorxivSource.fetch_papers "biorxiv" [] 0 1 none
      (fun _ => .page {} [{ doi := some "d", date := some 0 }]) 3 =
      .ok [BiorxivSource.itemToPaper "biorxiv" "d" { doi := some "d", date := some 0 }] 1 ∧
    [BiorxivSource.itemToPaper "biorxiv" "d" { doi := some "d", date := some 0 }] ≠
      ([] : List Paper) := by
  exact ⟨rfl, List.cons_ne_nil _ _⟩

/-- C6 (amended): the query-window (arXiv) strategy returns an empty list
when no categories are configured, before constructing any query -- the
result does not depend on the remote at all.  (The cursor-pagination
strategy instead fetches from all categories, see the counterexample.) -/
theorem arxiv_no_categories_noop (start_time_utc end_time_utc : Int)
    (fetched_results : List ArxivResult) :
    ArxivSource.fetch_papers [] start_time_utc end_time_utc fetched_results = [] := by
  simp [ArxivSource.fetch_papers]

/-- Helper: members of the arXiv dedup output come from the input list. -/
theorem ArxivSource.mem_of_mem_dedup (seen : List String) (l : List ArxivResult)
    (r : ArxivResult) (h : r ∈ ArxivSource.dedup seen l) : r ∈ l := by
  induction l generalizing seen with
  | nil => simpa [ArxivSource.dedup] using h
  | cons x xs ih =>
    rw [ArxivSource.dedup] at h
    by_cases hx : x.short_id ∈ seen
    · rw [if_pos hx] at h
      exact List.mem_cons_of_mem _ (ih _ h)
    · rw [if_neg hx] at h
      rcases List.mem_cons.mp h with rfl | h'
      · exact List.mem_cons_self _ _
      · exact List.mem_cons_of_mem _ (ih _ h')

/-- Helper: membership in the truncated list implies membership in the
untruncated one. -/
theorem BiorxivSource.mem_of_mem_truncateCap (cap : Option ℕ) (papers : List Paper)
    (p : Paper) (h : p ∈ BiorxivSource.truncateCap cap papers) : p ∈ papers := by
  cases cap with
  | none => simpa [BiorxivSource.truncateCap] using h
  | some c =>
    rw [BiorxivSource.truncateCap] at h
    by_cases hc : c < papers.length
    · rw [if_pos hc] at h
      exact List.mem_of_mem_take h
    · rwa [if_neg hc] at h

/-- Helper: every paper present after the item loop was already collected
before the page or arises from one of the page's records. -/
theorem BiorxivSource.processItems_mem (server : String) (cap : Option ℕ)
    (items : List BxItem) (seen : List String) (acc : List Paper) (count : ℕ)
    (p : Paper)
    (hp : p ∈ (BiorxivSource.processItems server cap items seen acc count).2.1) :
    p ∈ acc ∨ ∃ it ∈ items, ∃ d, it.doi = some d ∧
      p = BiorxivSource.itemToPaper server d it := by
  induction items generalizing seen acc count with
  | nil =>
    rw [BiorxivSource.processItems] at hp
    exact Or.inl hp
  | cons it rest ih =>
    rw [BiorxivSource.processItems] at hp
    split at hp
    · rcases ih _ _ _ hp with h | ⟨it', hit', d', hd', hpd'⟩
      · exact Or.inl h
      · exact Or.inr ⟨it', List.mem_cons_of_mem _ hit', d', hd', hpd'⟩
    · rename_i d hdoi
      split at hp
      · rcases ih _ _ _ hp with h | ⟨it', hit', d', hd', hpd'⟩
        · exact Or.inl h
        · exact Or.inr ⟨it', List.mem_cons_of_mem _ hit', d', hd', hpd'⟩
      · dsimp only at hp
        split at hp
        · simp only at hp
          rcases List.mem_append.mp hp with h | h
          · exact Or.inl h
          · rcases List.mem_singleton.mp h with rfl
            exact Or.inr ⟨it, List.mem_cons_self _ _, d, hdoi, rfl⟩
        · rcases ih _ _ _ hp with h | ⟨it', hit', d', hd', hpd'⟩
          · rcases List.mem_append.mp h with h' | h'
            · exact Or.inl h'
            · rcases List.mem_singleton.mp h' with rfl
              exact Or.inr ⟨it, List.mem_cons_self _ _, d, hdoi, rfl⟩
          · exact Or.inr ⟨it', List.mem_cons_of_mem _ hit', d', hd', hpd'⟩

/-- Helper: papers in a list returned by one loop iteration either were
already collected or arise from a record of the page just consumed. -/
theorem BiorxivSource.step_origin_halt (remote : ℕ → BxResponse) (cap : Option ℕ)
    (server : String) (req : ℕ) (cursor : Int) (tot : Int)
    (seen : List String) (acc : List Paper) (l : List Paper) (r' : ℕ)
    (h : BiorxivSource.step remote cap server req cursor tot seen acc = .halt (.ok l r')) :
    ∀ p ∈ l, p ∈ acc ∨ ∃ it ∈ BiorxivSource.pageItems (remote req), ∃ d,
      it.doi = some d ∧ p = BiorxivSource.itemToPaper server d it := by
  rw [BiorxivSource.step] at h
  split at h
  · cases h
    intro p hp
    exact Or.inl (BiorxivSource.mem_of_mem_truncateCap _ _ _ hp)
  · split at h
    · cases h
      intro p hp
      exact absurd hp (List.not_mem_nil p)
    · cases h
    · rename_i msgs coll hrem
      have horigin : ∀ p ∈ (BiorxivSource.processItems server cap coll seen acc 0).2.1,
          p ∈ acc ∨ ∃ it ∈ BiorxivSource.pageItems (remote req), ∃ d,
            it.doi = some d ∧ p = BiorxivSource.itemToPaper server d it := by
        intro p hp
        rcases BiorxivSource.processItems_mem server cap coll seen acc 0 p hp with
          hmem | ⟨it, hit, d, hd, hpd⟩
        · exact Or.inl hmem
        · exact Or.inr ⟨it, by simp [BiorxivSource.pageItems, hrem, hit], d, hd, hpd⟩
      dsimp only at h
      repeat' split at h
      all_goals cases h
      all_goals intro p hp
      all_goals first
        | exact Or.inl (BiorxivSource.mem_of_mem_truncateCap _ _ _ hp)
        | exact horigin p (BiorxivSource.mem_of_mem_truncateCap _ _ _ hp)

/-- Helper: when one loop iteration continues, every paper in the new
state either was already collected or arises from the page just
consumed. -/
theorem BiorxivSource.step_origin_next (remote : ℕ → BxResponse) (cap : Option ℕ)
    (server : String) (req : ℕ) (cursor : Int) (tot : Int)
    (seen : List String) (acc : List Paper)
    (req' : ℕ) (cursor' : Int) (tot' : Int) (seen' : List String) (acc' : List Paper)
    (h : BiorxivSource.step remote cap server req cursor tot seen acc =
      .next req' cursor' tot' seen' acc') :
    ∀ p ∈ acc', p ∈ acc ∨ ∃ it ∈ BiorxivSource.pageItems (remote req), ∃ d,
      it.doi = some d ∧ p = BiorxivSource.itemToPaper server d it := by
  rw [BiorxivSource.step] at h
  split at h
  · cases h
  · split at h
    · cases h
    · cases h
    · rename_i msgs coll hrem
      have horigin : ∀ p ∈ (BiorxivSource.processItems server cap coll seen acc 0).2.1,
          p ∈ acc ∨ ∃ it ∈ BiorxivSource.pageItems (remote req), ∃ d,
            it.doi = some d ∧ p = BiorxivSource.itemToPaper server d it := by
        intro p hp
        rcases BiorxivSource.processItems_mem server cap coll seen acc 0 p hp with
          hmem | ⟨it, hit, d, hd, hpd⟩
        · exact Or.inl hmem
        · exact Or.inr ⟨it, by simp [BiorxivSource.pageItems, hrem, hit], d, hd, hpd⟩
      dsimp only at h
      repeat' split at h
      all_goals cases h
      all_goals exact horigin

/-- Helper: a predicate holding for every convertible record of the
remote's pages and for the papers already collected is preserved by the
whole pagination loop. -/
theorem BiorxivSource.go_papers_pred (Q : Paper → Prop) (remote : ℕ → BxResponse)
    (cap : Option ℕ) (server : String)
    (hremote : ∀ i it, it ∈ BiorxivSource.pageItems (remote i) → ∀ d,
      it.doi = some d → Q (BiorxivSource.itemToPaper server d it)) :
    ∀ (fuel req : ℕ) (cursor tot : Int) (seen : List String) (acc : List Paper),
      (∀ p ∈ acc, Q p) →
      ∀ l r, BiorxivSource.go remote cap server fuel req cursor tot seen acc = .ok l r →
      ∀ p ∈ l, Q p := by
  intro fuel
  induction fuel with
  | zero =>
    intro req cursor tot seen acc hacc l r h
    rw [BiorxivSource.go] at h
    cases h
  | succ n ih =>
    intro req cursor tot seen acc hacc l r h
    rw [BiorxivSource.go] at h
    cases hstep : BiorxivSource.step remote cap server req cursor tot seen acc with
    | halt r0 =>
      rw [hstep] at h
      dsimp only at h
      subst h
      intro p hp
      rcases BiorxivSource.step_origin_halt remote cap server req cursor tot seen acc
        l r hstep p hp with hmem | ⟨it, hit, d, hd, hpd⟩
      · exact hacc p hmem
      · rw [hpd]
        exact hremote req it hit d hd
    | next req' cursor' tot' seen' acc' =>
      rw [hstep] at h
      dsimp only at h
      refine ih req' cursor' tot' seen' acc' ?_ l r h
      intro p hp
      rcases BiorxivSource.step_origin_next remote cap server req cursor tot seen acc
        req' cursor' tot' seen' acc' hstep p hp with hmem | ⟨it, hit, d, hd, hpd⟩
      · exact hacc p hmem
      · rw [hpd]
        exact hremote req it hit d hd

/-- C4 counterexample.  Neither source checks returned timestamps against
the window locally; here `fetch(0, 1)` on the cursor source returns a
paper dated 99 because the remote included an out-of-window record. -/
theorem window_containment_counterexample :
    BiorxivSource.fetch_papers "biorxiv" ["neuroscience"] 0 1 none
      (fun _ => .page {} [{ doi := some "d", date := some 99 }]) 3 =
      .ok [BiorxivSource.itemToPaper "biorxiv" "d" { doi := some "d", date := some 99 }] 1 ∧
    (BiorxivSource.itemToPaper "biorxiv" "d"
      { doi := some "d", date := some 99 }).published_date = some 99 ∧
    ¬((0 : Int) ≤ 99 ∧ (99 : Int) ≤ 1) := by
  exact ⟨rfl, rfl, by decide⟩

/-- C4 (amended): window containment holds provided the remote honours the
windowed query -- both strategies delegate the time filter to the remote
(arXiv via the `lastUpdatedDate` query, bioRxiv via the interval URL) and
perform no local timestamp check.  If every record of the remote response
carries a parseable timestamp inside `[start, end]`, then so does every
returned paper. -/
theorem window_containment_of_remote :
    (∀ (categories : List String) (startT endT : Int) (fetched : List ArxivResult),
      (∀ rr ∈ fetched, startT ≤ rr.updated ∧ rr.updated ≤ endT) →
      ∀ p ∈ ArxivSource.fetch_papers categories startT endT fetched,
        ∃ t, p.published_date = some t ∧ startT ≤ t ∧ t ≤ endT) ∧
    (∀ (server : String) (categories : List String) (startT endT : Int)
        (cap : Option ℕ) (remote : ℕ → BxResponse) (fuel : ℕ) (l : List Paper) (r : ℕ),
      (∀ i it, it ∈ BiorxivSource.pageItems (remote i) →
        ∃ t, it.date = some t ∧ startT ≤ t ∧ t ≤ endT) →
      BiorxivSource.fetch_papers server categories startT endT cap remote fuel = .ok l r →
      ∀ p ∈ l, ∃ t, p.published_date = some t ∧ startT ≤ t ∧ t ≤ endT) := by
  constructor
  · intro categories startT endT fetched hfetched p hp
    rw [ArxivSource.fetch_papers] at hp
    by_cases hc : categories.isEmpty
    · rw [if_pos hc] at hp
      exact absurd hp (List.not_mem_nil p)
    · rw [if_neg hc] at hp
      rcases List.mem_map.mp hp with ⟨rr, hrr, rfl⟩
      have hr := hfetched rr (ArxivSource.mem_of_mem_dedup _ _ _ hrr)
      exact ⟨rr.updated, rfl, hr.1, hr.2⟩
  · intro server categories startT endT cap remote fuel l r hrem hfetch p hp
    rw [BiorxivSource.fetch_papers] at hfetch
    refine BiorxivSource.go_papers_pred
      (fun q => ∃ t, q.published_date = some t ∧ startT ≤ t ∧ t ≤ endT)
      remote cap server ?_ fuel 0 0 (-1) [] []
      (by intro q hq; exact absurd hq (List.not_mem_nil q)) l r hfetch p hp
    intro i it hit d hd
    rcases hrem i it hit with ⟨t, ht, h1, h2⟩
    exact ⟨t, by simp [BiorxivSource.itemToPaper, ht], h1, h2⟩

/-- Witness for `window_containment_of_remote` at a concrete input: an
in-window arXiv record and a one-page in-window bioRxiv remote. -/
theorem window_containment_of_remote_witness :
    (∃ t, (ArxivSource.toPaper { short_id := "xv1", updated := 0 }).published_date = some t ∧
      (0 : Int) ≤ t ∧ t ≤ 1) ∧
    (∃ t, (BiorxivSource.itemToPaper "biorxiv" "d"
        { doi := some "d", date := some 1 }).published_date = some t ∧
      (0 : Int) ≤ t ∧ t ≤ 1) := by
  constructor
  · exact window_containment_of_remote.1 ["cs.AI"] 0 1
      [{ short_id := "xv1", updated := 0 }]
      (by intro rr hrr; rcases List.mem_singleton.mp hrr with rfl; exact ⟨le_refl 0, by decide⟩)
      (ArxivSource.toPaper { short_id := "xv1", updated := 0 })
      (by rw [ArxivSource.fetch_papers, if_neg (by decide)]
          exact List.mem_map_of_mem _ (by rw [ArxivSource.dedup, if_neg (by decide)]
                                          exact List.mem_cons_self _ _))
  · exact window_containment_of_remote.2 "biorxiv" [] 0 1 none
      (fun _ => .page {} [{ doi := some "d", date := some 1 }]) 3
      [BiorxivSource.itemToPaper "biorxiv" "d" { doi := some "d", date := some 1 }] 1
      (by intro i it hit
          rcases List.mem_singleton.mp (by simpa [BiorxivSource.pageItems] using hit) with rfl
          exact ⟨1, rfl, by decide, le_refl 1⟩)
      rfl
      (BiorxivSource.itemToPaper "biorxiv" "d" { doi := some "d", date := some 1 })
      (List.mem_singleton.mpr rfl)

/-- C3 counterexample.  The code's first stop test compares
`count_in_page` -- the number of previously-unseen, doi-bearing items
accepted from the page -- against `PAGE_SIZE`, not the number of items the
page returned.  Here the remote returns a full page of 100 items (the
declared total is 1000, the cursor advances by 100, no cap is set), but
two items share a doi, so only 99 are new: the code stops after a single
request, where the claim requires another page to be requested. -/
theorem biorxiv_stop_counterexample :
    ((List.range 100).map (fun i =>
        ({ doi := some (toString (min i 98)), date := some 0 } : BxItem))).length =
      BiorxivSource.MAX_RESULTS_PER_PAGE ∧
    BiorxivSource.fetch_papers "biorxiv" ["c"] 0 1 none
      (fun _ => .page { total := some 1000, cursor := some 0, count := some 100 }
        ((List.range 100).map (fun i =>
          ({ doi := some (toString (min i 98)), date := some 0 } : BxItem)))) 5 =
      .ok ((List.range 99).map (fun i =>
        BiorxivSource.itemToPaper "biorxiv" (toString i)
          { doi := some (toString i), date := some 0 })) 1 ∧
    ((0 : Int) < 0 + 100 ∧ (99 : Int) < 1000) := by
  refine ⟨rfl, ?_, by decide⟩
  rfl

/-- C3 (amended): the loop requests another page exactly when the response
was a decodable page whose collection is non-empty, the result cap was
reached neither before the page nor inside it, the cursor and count fields
parse as integers, and none of the three stop tests fires -- where the
first stop test compares the number of NEW unique doi-bearing items
accepted from the page (`count_in_page`), not the raw page length, against
`PAGE_SIZE`. -/
theorem biorxiv_step_continues_iff (remote : ℕ → BxResponse) (cap : Option ℕ)
    (server : String) (req : ℕ) (cursor tot : Int) (seen : List String)
    (acc : List Paper) (msgs : BxMessages) (coll : List BxItem)
    (hpage : remote req = .page msgs coll) :
    (∃ req' cursor' tot' seen' acc',
      BiorxivSource.step remote cap server req cursor tot seen acc =
        .next req' cursor' tot' seen' acc') ↔
      (BiorxivSource.capReached cap acc.length = false ∧
       coll ≠ [] ∧
       (BiorxivSource.processItems server cap coll seen acc 0).2.2.2 = false ∧
       ∃ cv cnt, msgs.cursor = some cv ∧ msgs.count = some cnt ∧
         BiorxivSource.MAX_RESULTS_PER_PAGE ≤
           (BiorxivSource.processItems server cap coll seen acc 0).2.2.1 ∧
         cursor < cv + cnt ∧
         ((if tot = -1 then msgs.total.getD 0 else tot) = -1 ∨
           ((BiorxivSource.processItems server cap coll seen acc 0).1.length : Int) <
             (if tot = -1 then msgs.total.getD 0 else tot))) := by
  rw [BiorxivSource.step, hpage]
  by_cases hcap : BiorxivSource.capReached cap acc.length
  · rw [if_pos hcap]
    simp [hcap]
  · rw [if_neg hcap]
    dsimp only
    rw [Bool.not_eq_true] at hcap
    by_cases hempty : coll.isEmpty
    · rw [if_pos hempty]
      rw [List.isEmpty_iff] at hempty
      simp [hempty]
    · rw [if_neg hempty]
      rw [List.isEmpty_iff] at hempty
      by_cases hlim : (BiorxivSource.processItems server cap coll seen acc 0).2.2.2
      · rw [if_pos hlim]
        simp [hcap, hlim]
      · rw [if_neg hlim]
        rw [Bool.not_eq_true] at hlim
        cases hcv : msgs.cursor with
        | none => simp [hcv]
        | some cv =>
          cases hcnt : msgs.count with
          | none => simp [hcnt]
          | some cnt =>
            dsimp only
            by_cases hstop : (BiorxivSource.processItems server cap coll seen acc 0).2.2.1 <
                  BiorxivSource.MAX_RESULTS_PER_PAGE ∨ cv + cnt ≤ cursor ∨
                ((if tot = -1 then msgs.total.getD 0 else tot) ≠ -1 ∧
                  ((if tot = -1 then msgs.total.getD 0 else tot) : Int) ≤
                    (((BiorxivSource.processItems server cap coll seen acc 0).1.length : Int)))
            · rw [if_pos hstop]
              constructor
              · rintro ⟨a, b, c, d, e, h⟩
                cases h
              · rintro ⟨-, -, -, cv', cnt', hcv', hcnt', hcount, hcur, hlast⟩
                have hc1 : cv = cv' := Option.some.inj hcv'
                have hc2 : cnt = cnt' := Option.some.inj hcnt'
                exfalso
                rcases hstop with h1 | h2 | ⟨h3, h4⟩
                · omega
                · omega
                · rcases hlast with h5 | h6
                  · exact h3 h5
                  · omega
            · rw [if_neg hstop]
              push_neg at hstop
              constructor
              · rintro -
                refine ⟨hcap, hempty, hlim, cv, cnt, rfl, rfl, hstop.1, hstop.2.1, ?_⟩
                by_cases htot : (if tot = -1 then msgs.total.getD 0 else tot) = -1
                · exact Or.inl htot
                · exact Or.inr (hstop.2.2 htot)
              · rintro -
                exact ⟨req + 1, cv + cnt, _, _, _, rfl⟩

/-- Witness for `biorxiv_step_continues_iff`: a full page of 100 fresh
doi-bearing items with an advancing cursor, a large declared total and no
cap makes the loop request another page. -/
theorem biorxiv_step_continues_iff_witness :
    ∃ req' cursor' tot' seen' acc',
      BiorxivSource.step
        (fun _ => .page { total := some 1000, cursor := some 0, count := some 100 }
          ((List.range 100).map (fun i =>
            ({ doi := some (toString i), date := some 0 } : BxItem))))
        none "biorxiv" 0 0 (-1) [] [] =
        .next req' cursor' tot' seen' acc' := by
  apply (biorxiv_step_continues_iff _ none "biorxiv" 0 0 (-1) [] []
    { total := some 1000, cursor := some 0, count := some 100 }
    ((List.range 100).map (fun i =>
      ({ doi := some (toString i), date := some 0 } : BxItem)))
    rfl).mpr
  refine ⟨rfl, by decide, rfl, 0, 100, rfl, rfl, by decide, by decide, ?_⟩
  right
  decide

/-- Helper: the item loop with no cap never sets the limit flag. -/
theorem BiorxivSource.processItems_none_no_limit (server : String) (items : List BxItem) :
    ∀ (seen : List String) (acc : List Paper) (cnt : ℕ),
      (BiorxivSource.processItems server none items seen acc cnt).2.2.2 = false := by
  induction items with
  | nil =>
    intro seen acc cnt
    rw [BiorxivSource.processItems]
  | cons it rest ih =>
    intro seen acc cnt
    rw [BiorxivSource.processItems]
    cases it.doi with
    | none => exact ih _ _ _
    | some d =>
      dsimp only
      by_cases hskip : d = "" ∨ d ∈ seen
      · rw [if_pos hskip]
        exact ih _ _ _
      · rw [if_neg hskip]
        exact ih _ _ _

/-- Helper: with no cap the item loop only appends to the accumulator. -/
theorem BiorxivSource.processItems_none_prefix (server : String) (items : List BxItem) :
    ∀ (seen : List String) (acc : List Paper) (cnt : ℕ),
      acc <+: (BiorxivSource.processItems server none items seen acc cnt).2.1 := by
  induction items with
  | nil =>
    intro seen acc cnt
    rw [BiorxivSource.processItems]
  | cons it rest ih =>
    intro seen acc cnt
    rw [BiorxivSource.processItems]
    cases it.doi with
    | none => exact ih _ _ _
    | some d =>
      dsimp only
      by_cases hskip : d = "" ∨ d ∈ seen
      · rw [if_pos hskip]
        exact ih _ _ _
      · rw [if_neg hskip]
        exact (List.prefix_append acc [BiorxivSource.itemToPaper server d it]).trans (ih _ _ _)

/-- Helper: the cap check is never positive when no cap is configured. -/
theorem BiorxivSource.capReached_none (n : ℕ) :
    BiorxivSource.capReached none n = false := rfl

/-- Helper: when the capped item loop does not hit the limit it behaves
exactly like the cap-free loop and stays strictly below the cap. -/
theorem BiorxivSource.processItems_no_limit_eq (server : String) (c : ℕ) (items : List BxItem) :
    ∀ (seen : List String) (acc : List Paper) (cnt : ℕ), acc.length < c →
      (BiorxivSource.processItems server (some c) items seen acc cnt).2.2.2 = false →
      BiorxivSource.processItems server (some c) items seen acc cnt =
        BiorxivSource.processItems server none items seen acc cnt ∧
      (BiorxivSource.processItems server (some c) items seen acc cnt).2.1.length < c := by
  induction items with
  | nil =>
    intro seen acc cnt hlen hflag
    exact ⟨rfl, hlen⟩
  | cons it rest ih =>
    intro seen acc cnt hlen hflag
    rw [BiorxivSource.processItems] at hflag
    simp only [BiorxivSource.processItems] at hflag ⊢
    cases hdoi : it.doi with
    | none =>
      simp only [hdoi] at hflag
      exact ih _ _ _ hlen hflag
    | some d =>
      simp only [hdoi] at hflag
      dsimp only at hflag ⊢
      by_cases hskip : d = "" ∨ d ∈ seen
      · rw [if_pos hskip] at hflag ⊢
        rw [if_pos hskip]
        exact ih _ _ _ hlen hflag
      · rw [if_neg hskip] at hflag ⊢
        rw [if_neg hskip]
        simp only [BiorxivSource.capReached_none, Bool.false_eq_true, if_false]
        by_cases hcap : BiorxivSource.capReached (some c)
            (acc ++ [BiorxivSource.itemToPaper server d it]).length
        · rw [if_pos hcap] at hflag
          cases hflag
        · rw [if_neg hcap] at hflag ⊢
          have hlen' : (acc ++ [BiorxivSource.itemToPaper server d it]).length < c := by
            simp only [BiorxivSource.capReached, decide_eq_true_eq] at hcap
            omega
          exact ih _ _ _ hlen' hflag

/-- Helper: when the capped item loop hits the limit it has collected
exactly `c` papers, a prefix of what the cap-free loop collects. -/
theorem BiorxivSource.processItems_limit_prefix (server : String) (c : ℕ) (items : List BxItem) :
    ∀ (seen : List String) (acc : List Paper) (cnt : ℕ), acc.length < c →
      (BiorxivSource.processItems server (some c) items seen acc cnt).2.2.2 = true →
      (BiorxivSource.processItems server (some c) items seen acc cnt).2.1.length = c ∧
      (BiorxivSource.processItems server (some c) items seen acc cnt).2.1 <+:
        (BiorxivSource.processItems server none items seen acc cnt).2.1 := by
  induction items with
  | nil =>
    intro seen acc cnt hlen hflag
    rw [BiorxivSource.processItems] at hflag
    cases hflag
  | cons it rest ih =>
    intro seen acc cnt hlen hflag
    rw [BiorxivSource.processItems] at hflag
    simp only [BiorxivSource.processItems] at hflag ⊢
    cases hdoi : it.doi with
    | none =>
      simp only [hdoi] at hflag
      exact ih _ _ _ hlen hflag
    | some d =>
      simp only [hdoi] at hflag
      dsimp only at hflag ⊢
      by_cases hskip : d = "" ∨ d ∈ seen
      · rw [if_pos hskip] at hflag ⊢
        rw [if_pos hskip]
        exact ih _ _ _ hlen hflag
      · rw [if_neg hskip] at hflag ⊢
        rw [if_neg hskip]
        simp only [BiorxivSource.capReached_none, Bool.false_eq_true, if_false]
        by_cases hcap : BiorxivSource.capReached (some c)
            (acc ++ [BiorxivSource.itemToPaper server d it]).length
        · rw [if_pos hcap]
          simp only [BiorxivSource.capReached, decide_eq_true_eq] at hcap
          refine ⟨?_, BiorxivSource.processItems_none_prefix server rest _ _ _⟩
          simp only [List.length_append, List.length_singleton]
          simp only [List.length_append, List.length_singleton] at hcap
          omega
        · rw [if_neg hcap] at hflag ⊢
          have hlen' : (acc ++ [BiorxivSource.itemToPaper server d it]).length < c := by
            simp only [BiorxivSource.capReached, decide_eq_true_eq] at hcap
            omega
          exact ih _ _ _ hlen' hflag

/-- Helper: the final truncation never exceeds a configured cap. -/
theorem BiorxivSource.truncateCap_some_length (c : ℕ) (papers : List Paper) :
    (BiorxivSource.truncateCap (some c) papers).length ≤ c := by
  rw [BiorxivSource.truncateCap]
  by_cases h : c < papers.length
  · rw [if_pos h]
    simp [List.length_take]
  · rw [if_neg h]
    omega

/-- Helper: the truncation is the identity below the cap. -/
theorem BiorxivSource.truncateCap_of_le (c : ℕ) (papers : List Paper)
    (h : papers.length ≤ c) : BiorxivSource.truncateCap (some c) papers = papers := by
  rw [BiorxivSource.truncateCap, if_neg (by omega)]

/-- Helper: any list returned by one loop iteration is empty or a
truncation. -/
theorem BiorxivSource.step_halt_ok_shape (remote : ℕ → BxResponse) (cap : Option ℕ)
    (server : String) (req : ℕ) (cursor tot : Int) (seen : List String)
    (acc : List Paper) (l : List Paper) (r' : ℕ)
    (h : BiorxivSource.step remote cap server req cursor tot seen acc = .halt (.ok l r')) :
    l = [] ∨ ∃ x, l = BiorxivSource.truncateCap cap x := by
  rw [BiorxivSource.step] at h
  split at h
  · cases h
    exact Or.inr ⟨acc, rfl⟩
  · split at h
    · cases h
      exact Or.inl rfl
    · cases h
    · dsimp only at h
      repeat' split at h
      all_goals cases h
      all_goals exact Or.inr ⟨_, rfl⟩

/-- Helper: a capped fetch never returns more than the cap. -/
theorem BiorxivSource.go_cap_length (remote : ℕ → BxResponse) (server : String) (c : ℕ) :
    ∀ (fuel req : ℕ) (cursor tot : Int) (seen : List String) (acc : List Paper)
      (l : List Paper) (r : ℕ),
      BiorxivSource.go remote (some c) server fuel req cursor tot seen acc = .ok l r →
      l.length ≤ c := by
  intro fuel
  induction fuel with
  | zero =>
    intro req cursor tot seen acc l r h
    rw [BiorxivSource.go] at h
    cases h
  | succ n ih =>
    intro req cursor tot seen acc l r h
    rw [BiorxivSource.go] at h
    cases hstep : BiorxivSource.step remote (some c) server req cursor tot seen acc with
    | halt r0 =>
      rw [hstep] at h
      dsimp only at h
      subst h
      rcases BiorxivSource.step_halt_ok_shape remote (some c) server req cursor tot
        seen acc l r hstep with rfl | ⟨x, rfl⟩
      · simp
      · exact BiorxivSource.truncateCap_some_length c x
    | next req' cursor' tot' seen' acc' =>
      rw [hstep] at h
      dsimp only at h
      exact ih req' cursor' tot' seen' acc' l r h

/-- Helper: when a below-cap iteration halts on a successful page, the
returned list is the first `c` papers of the cap-free accumulation of that
page. -/
theorem BiorxivSource.step_cap_halt_take (remote : ℕ → BxResponse) (server : String)
    (c : ℕ) (req : ℕ) (cursor tot : Int) (seen : List String) (acc : List Paper)
    (l : List Paper) (r' : ℕ)
    (hne : remote req ≠ .err) (hlen : acc.length < c)
    (h : BiorxivSource.step remote (some c) server req cursor tot seen acc =
      .halt (.ok l r')) :
    r' = req + 1 ∧
    l = ((BiorxivSource.acceptPages server [BiorxivSource.pageItems (remote req)]
      seen acc).2).take c := by
  rw [BiorxivSource.step] at h
  rw [if_neg (by simp only [BiorxivSource.capReached, decide_eq_true_eq]; omega)] at h
  cases hrem : remote req with
  | err => exact absurd hrem hne
  | crashMessages =>
    rw [hrem] at h
    cases h
  | page msgs coll =>
    rw [hrem] at h
    dsimp only at h
    have haccept : (BiorxivSource.acceptPages server
        [BiorxivSource.pageItems (BxResponse.page msgs coll)] seen acc).2 =
        (BiorxivSource.processItems server none coll seen acc 0).2.1 := rfl
    rw [haccept]
    split at h
    · rename_i hempty
      cases h
      rw [List.isEmpty_iff] at hempty
      subst hempty
      refine ⟨rfl, ?_⟩
      rw [BiorxivSource.truncateCap_of_le c acc (le_of_lt hlen)]
      rw [BiorxivSource.processItems]
      exact (List.take_of_length_le (le_of_lt hlen)).symm
    · split at h
      · rename_i hlim
        cases h
        rcases BiorxivSource.processItems_limit_prefix server c coll seen acc 0 hlen hlim
          with ⟨hlc, hpre⟩
        refine ⟨rfl, ?_⟩
        rw [BiorxivSource.truncateCap_of_le c _ (le_of_eq hlc)]
        rw [List.prefix_iff_eq_take.mp hpre, hlc]
      · rename_i hlim
        rw [Bool.not_eq_true] at hlim
        obtain ⟨heq, hlt⟩ :=
          BiorxivSource.processItems_no_limit_eq server c coll seen acc 0 hlen hlim
        repeat' split at h
        all_goals cases h
        all_goals refine ⟨rfl, ?_⟩
        all_goals rw [BiorxivSource.truncateCap_of_le c _ (le_of_lt hlt), heq]
        all_goals exact (List.take_of_length_le (le_of_lt (heq ▸ hlt))).symm

/-- Helper: when a below-cap iteration continues, the new dedup set and
paper list are exactly the cap-free accumulation of the consumed page, and
the paper count stays below the cap. -/
theorem BiorxivSource.step_cap_next_state (remote : ℕ → BxResponse) (server : String)
    (c : ℕ) (req : ℕ) (cursor tot : Int) (seen : List String) (acc : List Paper)
    (req' : ℕ) (cursor' tot' : Int) (seen' : List String) (acc' : List Paper)
    (hlen : acc.length < c)
    (h : BiorxivSource.step remote (some c) server req cursor tot seen acc =
      .next req' cursor' tot' seen' acc') :
    req' = req + 1 ∧
    seen' = (BiorxivSource.acceptPages server [BiorxivSource.pageItems (remote req)]
      seen acc).1 ∧
    acc' = (BiorxivSource.acceptPages server [BiorxivSource.pageItems (remote req)]
      seen acc).2 ∧
    acc'.length < c := by
  rw [BiorxivSource.step] at h
  rw [if_neg (by simp only [BiorxivSource.capReached, decide_eq_true_eq]; omega)] at h
  cases hrem : remote req with
  | err =>
    rw [hrem] at h
    cases h
  | crashMessages =>
    rw [hrem] at h
    cases h
  | page msgs coll =>
    rw [hrem] at h
    dsimp only at h
    have h1 : (BiorxivSource.acceptPages server
        [BiorxivSource.pageItems (BxResponse.page msgs coll)] seen acc).1 =
        (BiorxivSource.processItems server none coll seen acc 0).1 := rfl
    have h2 : (BiorxivSource.acceptPages server
        [BiorxivSource.pageItems (BxResponse.page msgs coll)] seen acc).2 =
        (BiorxivSource.processItems server none coll seen acc 0).2.1 := rfl
    split at h
    · cases h
    · split at h
      · cases h
      · rename_i hlim
        rw [Bool.not_eq_true] at hlim
        obtain ⟨heq, hlt⟩ :=
          BiorxivSource.processItems_no_limit_eq server c coll seen acc 0 hlen hlim
        repeat' split at h
        all_goals cases h
        all_goals exact ⟨rfl, by simp only [h1, heq], by simp only [h2, heq], hlt⟩

/-- Helper: a capped run that returns a result after consuming pages
`req, ..., r-1` retains exactly the first `c` papers of the cap-free
accumulation of those pages. -/
theorem BiorxivSource.go_cap_take (remote : ℕ → BxResponse) (server : String) (c : ℕ)
    (hne : ∀ i, remote i ≠ .err) :
    ∀ (fuel req : ℕ) (cursor tot : Int) (seen : List String) (acc : List Paper)
      (l : List Paper) (r : ℕ), acc.length < c →
      BiorxivSource.go remote (some c) server fuel req cursor tot seen acc = .ok l r →
      req < r ∧
      l = ((BiorxivSource.acceptPages server
        ((List.range' req (r - req)).map (fun i => BiorxivSource.pageItems (remote i)))
        seen acc).2).take c := by
  intro fuel
  induction fuel with
  | zero =>
    intro req cursor tot seen acc l r hlen h
    rw [BiorxivSource.go] at h
    cases h
  | succ n ih =>
    intro req cursor tot seen acc l r hlen h
    rw [BiorxivSource.go] at h
    cases hstep : BiorxivSource.step remote (some c) server req cursor tot seen acc with
    | halt r0 =>
      rw [hstep] at h
      dsimp only at h
      subst h
      obtain ⟨hr', hl⟩ := BiorxivSource.step_cap_halt_take remote server c req cursor tot
        seen acc l r (hne req) hlen hstep
      subst hr'
      refine ⟨Nat.lt_succ_self req, ?_⟩
      rw [hl, show req + 1 - req = 1 from by omega, List.range'_succ]
      simp only [List.range'_zero, List.map_cons, List.map_nil]
    | next req' cursor' tot' seen' acc' =>
      rw [hstep] at h
      dsimp only at h
      obtain ⟨hreq', hseen', hacc', hlt⟩ := BiorxivSource.step_cap_next_state remote server
        c req cursor tot seen acc req' cursor' tot' seen' acc' hlen hstep
      subst hreq'
      obtain ⟨hltr, hl⟩ := ih (req + 1) cursor' tot' seen' acc' l r hlt h
      refine ⟨by omega, ?_⟩
      rw [hl, hseen', hacc']
      rw [show r - req = (r - (req + 1)) + 1 from by omega, List.range'_succ]
      simp only [List.map_cons]
      rw [BiorxivSource.acceptPages]
      rfl

/-- C7: with a configured result cap, (i) the list returned by every
capped fetch has length at most the cap, and (ii) whenever the fetch
returns without aborting on a transport/decode failure, the retained
papers are exactly the first `cap` papers that the cap-free item loop
accepts from the consumed pages in arrival order -- the earliest-arriving
accepted items. -/
theorem biorxiv_cap_respected :
    (∀ (server : String) (categories : List String) (startT endT : Int) (c : ℕ)
        (remote : ℕ → BxResponse) (fuel : ℕ) (l : List Paper) (r : ℕ),
      BiorxivSource.fetch_papers server categories startT endT (some c) remote fuel =
        .ok l r → l.length ≤ c) ∧
    (∀ (server : String) (categories : List String) (startT endT : Int) (c : ℕ)
        (remote : ℕ → BxResponse) (fuel : ℕ) (l : List Paper) (r : ℕ),
      (∀ i, remote i ≠ .err) → 0 < c →
      BiorxivSource.fetch_papers server categories startT endT (some c) remote fuel =
        .ok l r →
      l = (BiorxivSource.acceptedNoCap server
        ((List.range r).map (fun i => BiorxivSource.pageItems (remote i)))).take c) := by
  constructor
  · intro server categories startT endT c remote fuel l r h
    rw [BiorxivSource.fetch_papers] at h
    exact BiorxivSource.go_cap_length remote server c fuel 0 0 (-1) [] [] l r h
  · intro server categories startT endT c remote fuel l r hne hc h
    rw [BiorxivSource.fetch_papers] at h
    obtain ⟨-, hl⟩ := BiorxivSource.go_cap_take remote server c hne fuel 0 0 (-1) [] [] l r
      (by simpa using hc) h
    rw [hl, BiorxivSource.acceptedNoCap, List.range_eq_range', Nat.sub_zero]

/-- Witness for `biorxiv_cap_respected` (spec Scenario B shape): cap 3,
one page of 5 accepted items; the result is exactly the first 3 accepted
papers, in arrival order. -/
theorem biorxiv_cap_respected_witness :
    ((List.range 3).map (fun i => BiorxivSource.itemToPaper "biorxiv" (toString i)
      { doi := some (toString i), date := some 0 })).length ≤ 3 ∧
    (List.range 3).map (fun i => BiorxivSource.itemToPaper "biorxiv" (toString i)
      { doi := some (toString i), date := some 0 }) =
      (BiorxivSource.acceptedNoCap "biorxiv"
        ((List.range 1).map (fun i => BiorxivSource.pageItems
          ((fun _ => BxResponse.page { total := some 5, cursor := some 0, count := some 5 }
            ((List.range 5).map (fun j =>
              ({ doi := some (toString j), date := some 0 } : BxItem)))) i)))).take 3 := by
  constructor
  · exact biorxiv_cap_respected.1 "biorxiv" [] 0 1 3
      (fun _ => BxResponse.page { total := some 5, cursor := some 0, count := some 5 }
        ((List.range 5).map (fun j => ({ doi := some (toString j), date := some 0 } : BxItem))))
      4
      ((List.range 3).map (fun i => BiorxivSource.itemToPaper "biorxiv" (toString i)
        { doi := some (toString i), date := some 0 }))
      1 rfl
  · exact biorxiv_cap_respected.2 "biorxiv" [] 0 1 3
      (fun _ => BxResponse.page { total := some 5, cursor := some 0, count := some 5 }
        ((List.range 5).map (fun j => ({ doi := some (toString j), date := some 0 } : BxItem))))
      4
      ((List.range 3).map (fun i => BiorxivSource.itemToPaper "biorxiv" (toString i)
        { doi := some (toString i), date := some 0 }))
      1 (by intro i h; cases h) (by decide) rfl

/-- Helper: a successful search is stable under appending further
records. -/
theorem find?_append_some {α : Type} {p : α → Bool} (l1 l2 : List α) (x : α)
    (h : l1.find? p = some x) : (l1 ++ l2).find? p = some x := by
  rw [List.find?_append, h]
  rfl

/-- Helper: members of the arXiv dedup output carry ids not in `seen`. -/
theorem ArxivSource.dedup_id_not_seen (seen : List String) (l : List ArxivResult)
    (r : ArxivResult) (h : r ∈ ArxivSource.dedup seen l) : r.short_id ∉ seen := by
  induction l generalizing seen with
  | nil => simp [ArxivSource.dedup] at h
  | cons x xs ih =>
    rw [ArxivSource.dedup] at h
    by_cases hx : x.short_id ∈ seen
    · rw [if_pos hx] at h
      exact ih _ h
    · rw [if_neg hx] at h
      rcases List.mem_cons.mp h with rfl | h'
      · exact hx
      · intro hmem
        exact ih _ h' (List.mem_cons_of_mem _ hmem)

/-- Helper: the arXiv dedup output has pairwise-distinct short ids. -/
theorem ArxivSource.dedup_nodup (seen : List String) (l : List ArxivResult) :
    ((ArxivSource.dedup seen l).map (fun r => r.short_id)).Nodup := by
  induction l generalizing seen with
  | nil => simp [ArxivSource.dedup]
  | cons x xs ih =>
    rw [ArxivSource.dedup]
    by_cases hx : x.short_id ∈ seen
    · rw [if_pos hx]
      exact ih _
    · rw [if_neg hx]
      rw [List.map_cons, List.nodup_cons]
      constructor
      · intro hmem
        rcases List.mem_map.mp hmem with ⟨r, hr, hid⟩
        exact ArxivSource.dedup_id_not_seen _ _ _ hr (hid ▸ List.mem_cons_self _ _)
      · exact ih _
/-- Helper: each record the arXiv dedup keeps is the first input record
bearing its short id. -/
theorem ArxivSource.dedup_first_occurrence (seen : List String) (l : List ArxivResult)
    (r : ArxivResult) (h : r ∈ ArxivSource.dedup seen l) :
    l.find? (fun t => decide (t.short_id = r.short_id)) = some r := by
  induction l generalizing seen with
  | nil => simp [ArxivSource.dedup] at h
  | cons x xs ih =>
    rw [ArxivSource.dedup] at h
    by_cases hx : x.short_id ∈ seen
    · rw [if_pos hx] at h
      have hne : x.short_id ≠ r.short_id := by
        intro heq
        exact ArxivSource.dedup_id_not_seen _ _ _ h (heq ▸ hx)
      rw [List.find?_cons_of_neg _ (by simpa using hne)]
      exact ih _ h
    · rw [if_neg hx] at h
      rcases List.mem_cons.mp h with rfl | h'
      · rw [List.find?_cons_of_pos _ (by simp)]
      · have hne : x.short_id ≠ r.short_id := by
          intro heq
          have := ArxivSource.dedup_id_not_seen _ _ _ h'
          exact this (heq ▸ List.mem_cons_self _ _)
        rw [List.find?_cons_of_neg _ (by simpa using hne)]
        exact ih _ h'

/-- Helper: dedup invariants of the item loop.  Threading the records
already consumed (`C`): afterwards the collected ids are pairwise
distinct and contained in the seen set, every collected paper stems from
the first record of `C ++ items` bearing its doi, the seen set only
grows, and -- unless the loop broke on the cap -- every valid doi of
`C ++ items` is in the final seen set. -/
theorem BiorxivSource.processItems_invariants (server : String) (cap : Option ℕ)
    (items : List BxItem) :
    ∀ (C : List BxItem) (seen : List String) (acc : List Paper) (cnt : ℕ),
      (acc.map Paper.id).Nodup →
      (∀ p ∈ acc, p.id ∈ seen) →
      (∀ p ∈ acc, ∃ it, C.find? (fun x => decide (x.doi = some p.id)) = some it ∧
        p = BiorxivSource.itemToPaper server p.id it) →
      (∀ it ∈ C, ∀ d, it.doi = some d → d ≠ "" → d ∈ seen) →
      ((BiorxivSource.processItems server cap items seen acc cnt).2.1.map Paper.id).Nodup ∧
      (∀ p ∈ (BiorxivSource.processItems server cap items seen acc cnt).2.1,
        p.id ∈ (BiorxivSource.processItems server cap items seen acc cnt).1) ∧
      (∀ p ∈ (BiorxivSource.processItems server cap items seen acc cnt).2.1,
        ∃ it, (C ++ items).find? (fun x => decide (x.doi = some p.id)) = some it ∧
          p = BiorxivSource.itemToPaper server p.id it) ∧
      (∀ s ∈ seen, s ∈ (BiorxivSource.processItems server cap items seen acc cnt).1) ∧
      ((BiorxivSource.processItems server cap items seen acc cnt).2.2.2 = false →
        ∀ it ∈ C ++ items, ∀ d, it.doi = some d → d ≠ "" →
          d ∈ (BiorxivSource.processItems server cap items seen acc cnt).1) := by
  induction items with
  | nil =>
    intro C seen acc cnt hnd hin hfo hcov
    rw [BiorxivSource.processItems]
    refine ⟨hnd, hin, ?_, fun s hs => hs, ?_⟩
    · intro p hp
      rcases hfo p hp with ⟨it, hfind, hpit⟩
      exact ⟨it, by simpa using hfind, hpit⟩
    · rintro - it hit d hd hne
      exact hcov it (by simpa using hit) d hd hne
  | cons it rest ih =>
    intro C seen acc cnt hnd hin hfo hcov
    rw [BiorxivSource.processItems]
    have hfo' : ∀ p ∈ acc, ∃ it', (C ++ [it]).find?
        (fun x => decide (x.doi = some p.id)) = some it' ∧
        p = BiorxivSource.itemToPaper server p.id it' := by
      intro p hp
      rcases hfo p hp with ⟨it', hfind, hpit⟩
      exact ⟨it', find?_append_some _ _ _ hfind, hpit⟩
    have happ : ∀ (X : List BxItem), (C ++ [it]) ++ X = C ++ it :: X := by
      intro X
      simp
    cases hdoi : it.doi with
    | none =>
      have hcov' : ∀ it' ∈ C ++ [it], ∀ d, it'.doi = some d → d ≠ "" → d ∈ seen := by
        intro it' hit' d hd hne
        rcases List.mem_append.mp hit' with h | h
        · exact hcov it' h d hd hne
        · rcases List.mem_singleton.mp h with rfl
          rw [hdoi] at hd
          cases hd
      have := ih (C ++ [it]) seen acc cnt hnd hin hfo' hcov'
      rwa [happ] at this
    | some d =>
      dsimp only
      by_cases hskip : d = "" ∨ d ∈ seen
      · rw [if_pos hskip]
        have hcov' : ∀ it' ∈ C ++ [it], ∀ d', it'.doi = some d' → d' ≠ "" → d' ∈ seen := by
          intro it' hit' d' hd' hne
          rcases List.mem_append.mp hit' with h | h
          · exact hcov it' h d' hd' hne
          · rcases List.mem_singleton.mp h with rfl
            rw [hdoi] at hd'
            rcases hskip with h0 | h0
            · cases hd'
              exact absurd h0 hne
            · cases hd'
              exact h0
        have := ih (C ++ [it]) seen acc cnt hnd hin hfo' hcov'
        rwa [happ] at this
      · rw [if_neg hskip]
        push_neg at hskip
        obtain ⟨hdne, hdnot⟩ := hskip
        have hnewfind : (C ++ [it]).find? (fun x => decide (x.doi = some d)) = some it := by
          rw [List.find?_append]
          have hCnone : C.find? (fun x => decide (x.doi = some d)) = none := by
            rw [List.find?_eq_none]
            intro x hx hpx
            rw [decide_eq_true_eq] at hpx
            exact hdnot (hcov x hx d hpx hdne)
          rw [hCnone]
          rw [List.find?_cons_of_pos _ (by simp [hdoi])]
          rfl
        have hnd' : ((acc ++ [BiorxivSource.itemToPaper server d it]).map Paper.id).Nodup := by
          rw [List.map_append, List.nodup_append]
          refine ⟨hnd, by simp [BiorxivSource.itemToPaper], ?_⟩
          intro s hs hmem
          rcases List.mem_map.mp hs with ⟨p, hp, rfl⟩
          simp only [List.map_cons, List.map_nil, BiorxivSource.itemToPaper,
            List.mem_singleton] at hmem
          exact hdnot (hmem ▸ hin p hp)
        have hin' : ∀ p ∈ acc ++ [BiorxivSource.itemToPaper server d it], p.id ∈ d :: seen := by
          intro p hp
          rcases List.mem_append.mp hp with h | h
          · exact List.mem_cons_of_mem _ (hin p h)
          · rcases List.mem_singleton.mp h with rfl
            exact List.mem_cons_self _ _
        have hfo'' : ∀ p ∈ acc ++ [BiorxivSource.itemToPaper server d it],
            ∃ it', (C ++ [it]).find? (fun x => decide (x.doi = some p.id)) = some it' ∧
              p = BiorxivSource.itemToPaper server p.id it' := by
          intro p hp
          rcases List.mem_append.mp hp with h | h
          · exact hfo' p h
          · rcases List.mem_singleton.mp h with rfl
            exact ⟨it, hnewfind, rfl⟩
        have hcov'' : ∀ it' ∈ C ++ [it], ∀ d', it'.doi = some d' → d' ≠ "" →
            d' ∈ d :: seen := by
          intro it' hit' d' hd' hne
          rcases List.mem_append.mp hit' with h | h
          · exact List.mem_cons_of_mem _ (hcov it' h d' hd' hne)
          · rcases List.mem_singleton.mp h with rfl
            rw [hdoi] at hd'
            cases hd'
            exact List.mem_cons_self _ _
        by_cases hcap : BiorxivSource.capReached cap
            (acc ++ [BiorxivSource.itemToPaper server d it]).length
        · rw [if_pos hcap]
          refine ⟨hnd', hin', ?_, ?_, ?_⟩
          · intro p hp
            rcases hfo'' p hp with ⟨it', hfind, hpit⟩
            refine ⟨it', ?_, hpit⟩
            rw [← happ rest]
            exact find?_append_some _ _ _ hfind
          · intro s hs
            exact List.mem_cons_of_mem _ hs
          · intro hflag
            cases hflag
        · rw [if_neg hcap]
          obtain ⟨i1, i2, i3, i4, i5⟩ := ih (C ++ [it]) (d :: seen)
            (acc ++ [BiorxivSource.itemToPaper server d it]) (cnt + 1)
            hnd' hin' hfo'' hcov''
          rw [happ] at i3 i5
          exact ⟨i1, i2, i3, fun s hs => i4 s (List.mem_cons_of_mem _ hs), i5⟩

/-- Helper: the possible outcomes of one halting iteration, with the page
they consumed. -/
theorem BiorxivSource.step_halt_cases (remote : ℕ → BxResponse) (cap : Option ℕ)
    (server : String) (req : ℕ) (cursor tot : Int) (seen : List String)
    (acc : List Paper) (l : List Paper) (r' : ℕ)
    (h : BiorxivSource.step remote cap server req cursor tot seen acc = .halt (.ok l r')) :
    (l = [] ∧ r' = req + 1) ∨
    (l = BiorxivSource.truncateCap cap acc ∧ (r' = req ∨ r' = req + 1)) ∨
    (∃ msgs coll, remote req = .page msgs coll ∧ r' = req + 1 ∧
      l = BiorxivSource.truncateCap cap
        (BiorxivSource.processItems server cap coll seen acc 0).2.1) := by
  rw [BiorxivSource.step] at h
  split at h
  · cases h
    exact Or.inr (Or.inl ⟨rfl, Or.inl rfl⟩)
  · split at h
    · cases h
      exact Or.inl ⟨rfl, rfl⟩
    · cases h
    · rename_i msgs coll hrem
      dsimp only at h
      split at h
      · cases h
        exact Or.inr (Or.inl ⟨rfl, Or.inr rfl⟩)
      · repeat' split at h
        all_goals cases h
        all_goals exact Or.inr (Or.inr ⟨msgs, coll, hrem, rfl, rfl⟩)

/-- Helper: a continuing iteration consumed a successful page without
hitting the cap, and carries the item loop's results forward. -/
theorem BiorxivSource.step_next_cases (remote : ℕ → BxResponse) (cap : Option ℕ)
    (server : String) (req : ℕ) (cursor tot : Int) (seen : List String)
    (acc : List Paper) (req' : ℕ) (cursor' tot' : Int) (seen' : List String)
    (acc' : List Paper)
    (h : BiorxivSource.step remote cap server req cursor tot seen acc =
      .next req' cursor' tot' seen' acc') :
    ∃ msgs coll, remote req = .page msgs coll ∧ req' = req + 1 ∧
      seen' = (BiorxivSource.processItems server cap coll seen acc 0).1 ∧
      acc' = (BiorxivSource.processItems server cap coll seen acc 0).2.1 ∧
      (BiorxivSource.processItems server cap coll seen acc 0).2.2.2 = false := by
  rw [BiorxivSource.step] at h
  split at h
  · cases h
  · split at h
    · cases h
    · cases h
    · rename_i msgs coll hrem
      dsimp only at h
      split at h
      · cases h
      · split at h
        · cases h
        · rename_i hflag
          repeat' split at h
          all_goals cases h
          all_goals exact ⟨msgs, coll, hrem, rfl, rfl, rfl, by
            rw [Bool.not_eq_true] at hflag
            exact hflag⟩

/-- Helper: the records consumed by `r + 1` requests are those of the
first `r` plus the last page. -/
theorem BiorxivSource.consumedItems_succ (remote : ℕ → BxResponse) (r : ℕ) :
    BiorxivSource.consumedItems remote (r + 1) =
      BiorxivSource.consumedItems remote r ++ BiorxivSource.pageItems (remote r) := by
  rw [BiorxivSource.consumedItems, BiorxivSource.consumedItems, List.range_succ,
    List.flatMap_append]
  simp

/-- Helper: the final truncation is a sublist of its input. -/
theorem BiorxivSource.truncateCap_sublist (cap : Option ℕ) (papers : List Paper) :
    (BiorxivSource.truncateCap cap papers).Sublist papers := by
  cases cap with
  | none => exact List.Sublist.refl papers
  | some c =>
    rw [BiorxivSource.truncateCap]
    by_cases h : c < papers.length
    · rw [if_pos h]
      exact List.take_sublist c papers
    · rw [if_neg h]

/-- Helper: dedup invariants hold along the whole pagination loop. -/
theorem BiorxivSource.go_dedup (remote : ℕ → BxResponse) (cap : Option ℕ)
    (server : String) :
    ∀ (fuel req : ℕ) (cursor tot : Int) (seen : List String) (acc : List Paper)
      (l : List Paper) (r : ℕ),
      (acc.map Paper.id).Nodup →
      (∀ p ∈ acc, p.id ∈ seen) →
      (∀ p ∈ acc, ∃ it, (BiorxivSource.consumedItems remote req).find?
        (fun x => decide (x.doi = some p.id)) = some it ∧
        p = BiorxivSource.itemToPaper server p.id it) →
      (∀ it ∈ BiorxivSource.consumedItems remote req, ∀ d,
        it.doi = some d → d ≠ "" → d ∈ seen) →
      BiorxivSource.go remote cap server fuel req cursor tot seen acc = .ok l r →
      (l.map Paper.id).Nodup ∧
      ∀ p ∈ l, ∃ it, (BiorxivSource.consumedItems remote r).find?
        (fun x => decide (x.doi = some p.id)) = some it ∧
        p = BiorxivSource.itemToPaper server p.id it := by
  intro fuel
  induction fuel with
  | zero =>
    intro req cursor tot seen acc l r hnd hin hfo hcov h
    rw [BiorxivSource.go] at h
    cases h
  | succ n ih =>
    intro req cursor tot seen acc l r hnd hin hfo hcov h
    rw [BiorxivSource.go] at h
    cases hstep : BiorxivSource.step remote cap server req cursor tot seen acc with
    | halt r0 =>
      rw [hstep] at h
      dsimp only at h
      subst h
      rcases BiorxivSource.step_halt_cases remote cap server req cursor tot seen acc
        l r hstep with ⟨rfl, rfl⟩ | ⟨rfl, hr⟩ | ⟨msgs, coll, hrem, rfl, rfl⟩
      · exact ⟨List.nodup_nil, by intro p hp; exact absurd hp (List.not_mem_nil p)⟩
      · refine ⟨((BiorxivSource.truncateCap_sublist cap acc).map Paper.id).nodup hnd, ?_⟩
        intro p hp
        have hpa := BiorxivSource.mem_of_mem_truncateCap cap acc p hp
        rcases hfo p hpa with ⟨it, hfind, hpit⟩
        rcases hr with rfl | rfl
        · exact ⟨it, hfind, hpit⟩
        · rw [BiorxivSource.consumedItems_succ]
          exact ⟨it, find?_append_some _ _ _ hfind, hpit⟩
      · obtain ⟨i1, i2, i3, i4, i5⟩ := BiorxivSource.processItems_invariants server cap coll
          (BiorxivSource.consumedItems remote req) seen acc 0 hnd hin hfo hcov
        refine ⟨((BiorxivSource.truncateCap_sublist cap _).map Paper.id).nodup i1, ?_⟩
        intro p hp
        have hpa := BiorxivSource.mem_of_mem_truncateCap cap _ p hp
        rcases i3 p hpa with ⟨it, hfind, hpit⟩
        refine ⟨it, ?_, hpit⟩
        rw [BiorxivSource.consumedItems_succ, hrem]
        simpa [BiorxivSource.pageItems] using hfind
    | next req' cursor' tot' seen' acc' =>
      rw [hstep] at h
      dsimp only at h
      obtain ⟨msgs, coll, hrem, hreq', hseen', hacc', hflag⟩ :=
        BiorxivSource.step_next_cases remote cap server req cursor tot seen acc
          req' cursor' tot' seen' acc' hstep
      subst hreq'
      obtain ⟨i1, i2, i3, i4, i5⟩ := BiorxivSource.processItems_invariants server cap coll
        (BiorxivSource.consumedItems remote req) seen acc 0 hnd hin hfo hcov
      refine ih (req + 1) cursor' tot' seen' acc' l r ?_ ?_ ?_ ?_ h
      · rw [hacc']
        exact i1
      · rw [hacc', hseen']
        exact i2
      · rw [hacc']
        intro p hp
        rcases i3 p hp with ⟨it, hfind, hpit⟩
        refine ⟨it, ?_, hpit⟩
        rw [BiorxivSource.consumedItems_succ, hrem]
        simpa [BiorxivSource.pageItems] using hfind
      · rw [hseen']
        rw [BiorxivSource.consumedItems_succ, hrem]
        intro it hit d hd hdne
        have := i5 hflag
        refine this it ?_ d hd hdne
        simpa [BiorxivSource.pageItems] using hit

/-- C8: per-call id uniqueness, first occurrence kept.  Query-window
(arXiv) strategy: the ids of the papers returned by one fetch_papers
call are pairwise distinct, and each returned paper is the conversion of
the FIRST raw record carrying its id.  Cursor-pagination
(bioRxiv/medRxiv) strategy: whenever a run completes normally, the ids
of the returned papers are pairwise distinct, and each returned paper is
built from the FIRST record carrying its doi among all records the
remote delivered during the run. -/
theorem sources_unique_first_occurrence :
    (∀ (categories : List String) (s e : Int) (fetched : List ArxivResult),
      ((ArxivSource.fetch_papers categories s e fetched).map Paper.id).Nodup ∧
      ∀ p ∈ ArxivSource.fetch_papers categories s e fetched,
        ∃ rr, fetched.find? (fun t => decide (t.short_id = p.id)) = some rr ∧
          p = ArxivSource.toPaper rr) ∧
    (∀ (server : String) (categories : List String) (s e : Int) (cap : Option ℕ)
        (remote : ℕ → BxResponse) (fuel : ℕ) (l : List Paper) (r : ℕ),
      BiorxivSource.fetch_papers server categories s e cap remote fuel = .ok l r →
      (l.map Paper.id).Nodup ∧
      ∀ p ∈ l, ∃ it, (BiorxivSource.consumedItems remote r).find?
        (fun x => decide (x.doi = some p.id)) = some it ∧
        p = BiorxivSource.itemToPaper server p.id it) := by
  constructor
  · intro categories s e fetched
    rw [ArxivSource.fetch_papers]
    by_cases hc : categories.isEmpty
    · rw [if_pos hc]
      exact ⟨List.nodup_nil, fun p hp => absurd hp (List.not_mem_nil p)⟩
    · rw [if_neg hc]
      constructor
      · rw [List.map_map]
        exact ArxivSource.dedup_nodup [] fetched
      · intro p hp
        rcases List.mem_map.mp hp with ⟨rr, hrr, rfl⟩
        refine ⟨rr, ?_, rfl⟩
        have hfind := ArxivSource.dedup_first_occurrence [] fetched rr hrr
        simpa [ArxivSource.toPaper] using hfind
  · intro server categories s e cap remote fuel l r h
    rw [BiorxivSource.fetch_papers] at h
    refine BiorxivSource.go_dedup remote cap server fuel 0 0 (-1) [] [] l r ?_ ?_ ?_ ?_ h
    · simp
    · intro p hp
      exact absurd hp (List.not_mem_nil p)
    · intro p hp
      exact absurd hp (List.not_mem_nil p)
    · intro it hit
      simp [BiorxivSource.consumedItems] at hit

theorem sources_unique_first_occurrence_witness :
    ((ArxivSource.fetch_papers ["cs.AI"] 0 1
      [{ short_id := "x", title := "A" }, { short_id := "x", title := "B" },
       { short_id := "y" }]).map Paper.id).Nodup ∧
    (([BiorxivSource.itemToPaper "biorxiv" "d1"
        { doi := some "d1", date := some 0 }]).map Paper.id).Nodup :=
  ⟨(sources_unique_first_occurrence.1 ["cs.AI"] 0 1
      [{ short_id := "x", title := "A" }, { short_id := "x", title := "B" },
       { short_id := "y" }]).1,
   (sources_unique_first_occurrence.2 "biorxiv" [] 0 1 none
      (fun _ => BxResponse.page {}
        [{ doi := some "d1", date := some 0 }, { doi := some "d1", date := some 0 }]) 3
      [BiorxivSource.itemToPaper "biorxiv" "d1" { doi := some "d1", date := some 0 }]
      1 rfl).1⟩
